import Mathlib

/-!
# GCodeImporter (sandify): arc tessellation, path accumulation, normalisation

Shallow embedding of `src/features/importer/GCodeImporter.js`.

JavaScript numbers are modelled by `JSNum α`: a finite value of an ordered
field `α` (exact arithmetic, no rounding, no overflow), or one of the three
special values `Infinity`, `-Infinity`, `NaN`, with the IEEE-754 rules for the
special values.  Zero carries no sign; every divisor that can be zero in the
source (`maxX - offsetX`, `maxY - offsetY`, `arcLength`) is `+0` there, so
`x / 0` takes the sign of `x`.

The program is generic in `α` and in the `Math` library (`JSMath α`), hence
executable at `α = ℚ`.

The embedding agrees with the binary64 program only where no operation rounds,
and the theorems are stated accordingly.  They are structural (which vertices
are pushed, in which order, by which expression of the source), or about the
special values, or restricted to inputs on which every binary64 operation
involved is exact.  None asserts that the stepping loop of `addArcCurve` ends
on every arc with a finite non-zero step: with binary64 numbers
`theta += thetaStep` can leave `theta` unchanged.  `QuarterArcMath` holds, as
exact fractions, the values that the binary64 `Math` library returns on one
arc; `RealMath` is the exact library over `ℝ`, used on arcs whose angles and
radius are the same in binary64.
-/

namespace GCodeImporter

/-! ## JavaScript numbers -/

/-- A JavaScript number: finite, `Infinity`, `-Infinity` or `NaN`. -/
inductive JSNum (α : Type) where
  | fin (v : α)
  | posInf
  | negInf
  | nan
  deriving DecidableEq, Repr

namespace JSNum

variable {α : Type} [LinearOrderedField α]

/-- Unary minus. -/
def neg : JSNum α → JSNum α
  | fin a => fin (-a)
  | posInf => negInf
  | negInf => posInf
  | nan => nan

/-- The operator `+`. -/
def add : JSNum α → JSNum α → JSNum α
  | fin a, fin b => fin (a + b)
  | fin _, posInf => posInf
  | fin _, negInf => negInf
  | posInf, fin _ => posInf
  | negInf, fin _ => negInf
  | posInf, posInf => posInf
  | negInf, negInf => negInf
  | posInf, negInf => nan
  | negInf, posInf => nan
  | nan, _ => nan
  | _, nan => nan

/-- The operator `-`. -/
def sub (a b : JSNum α) : JSNum α := add a (neg b)

/-- The value `s * Infinity` for a finite factor `s`: signed infinity, `NaN` for `s = 0`. -/
def signedInf (s : α) : JSNum α :=
  if 0 < s then posInf else if s < 0 then negInf else nan

/-- The operator `*`. -/
def mul : JSNum α → JSNum α → JSNum α
  | fin a, fin b => fin (a * b)
  | fin a, posInf => signedInf a
  | fin a, negInf => signedInf (-a)
  | posInf, fin b => signedInf b
  | negInf, fin b => signedInf (-b)
  | posInf, posInf => posInf
  | negInf, negInf => posInf
  | posInf, negInf => negInf
  | negInf, posInf => negInf
  | nan, _ => nan
  | _, nan => nan

/-- The operator `/`.  A zero divisor is `+0`: `x / 0` is `Infinity` with the sign of `x`,
and `0 / 0` is `NaN`. -/
def div : JSNum α → JSNum α → JSNum α
  | fin a, fin b => if b = 0 then signedInf a else fin (a / b)
  | fin _, posInf => fin 0
  | fin _, negInf => fin 0
  | posInf, fin b => if b < 0 then negInf else posInf
  | negInf, fin b => if b < 0 then posInf else negInf
  | posInf, posInf => nan
  | negInf, negInf => nan
  | posInf, negInf => nan
  | negInf, posInf => nan
  | nan, _ => nan
  | _, nan => nan

/-- The comparison `<=` (false as soon as one side is `NaN`). -/
def le : JSNum α → JSNum α → Bool
  | fin a, fin b => decide (a ≤ b)
  | nan, _ => false
  | _, nan => false
  | negInf, _ => true
  | _, posInf => true
  | posInf, _ => false
  | _, negInf => false

/-- The function `Math.min` on two arguments (`NaN` if either is `NaN`). -/
def min : JSNum α → JSNum α → JSNum α
  | nan, _ => nan
  | _, nan => nan
  | a, b => if le a b then a else b

/-- The function `Math.max` on two arguments (`NaN` if either is `NaN`). -/
def max : JSNum α → JSNum α → JSNum α
  | nan, _ => nan
  | _, nan => nan
  | a, b => if le a b then b else a

/-- Lifting of a `Math` function that is `NaN` outside the finite numbers (`cos`, `sin`). -/
def liftFinite (f : α → α) : JSNum α → JSNum α
  | fin a => fin (f a)
  | _ => nan

instance : Add (JSNum α) := ⟨add⟩
instance : Sub (JSNum α) := ⟨sub⟩
instance : Mul (JSNum α) := ⟨mul⟩
instance : Div (JSNum α) := ⟨div⟩

end JSNum

/-! ## Data model -/

/-- A point handed over by the G-code reader (`v0`, `v1`, `v2`): finite coordinates. -/
structure Vec (α : Type) where
  x : α
  y : α
  deriving DecidableEq, Repr

/-- An entry of `props.vertices`: the object `{x: x, y: y}`. -/
structure Vertex (α : Type) where
  x : JSNum α
  y : JSNum α
  deriving DecidableEq, Repr

/-- The entry `{x: p.x, y: p.y}` for a finite point `p`. -/
def Vec.toVertex {α : Type} (p : Vec α) : Vertex α := ⟨JSNum.fin p.x, JSNum.fin p.y⟩

/-- The modal state of the reader; only `modal.motion` is read. -/
structure Modal where
  motion : String
  deriving DecidableEq, Repr

/-- The object `props`; `originalAspectRatio` is absent until `normalizeCoords` sets it. -/
structure Props (α : Type) where
  comments : List String
  vertices : List (Vertex α)
  fileName : String
  originalAspectRatio : Option (JSNum α)
  deriving DecidableEq, Repr

/-! ## normalizeCoords -/

section Normalize

variable {α : Type} [LinearOrderedField α]

/-- The four accumulators `minX, minY, maxX, maxY` of `normalizeCoords`. -/
structure Bounds (α : Type) where
  minX : JSNum α
  minY : JSNum α
  maxX : JSNum α
  maxY : JSNum α
  deriving DecidableEq, Repr

/-- The seeds `1e9, 1e9, -1e9, -1e9`. -/
def initBounds : Bounds α :=
  ⟨JSNum.fin 1000000000, JSNum.fin 1000000000, JSNum.fin (-1000000000), JSNum.fin (-1000000000)⟩

/-- One call of the `forEach` callback. -/
def boundsStep (b : Bounds α) (vertex : Vertex α) : Bounds α :=
  ⟨JSNum.min vertex.x b.minX, JSNum.min vertex.y b.minY,
   JSNum.max vertex.x b.maxX, JSNum.max vertex.y b.maxY⟩

/-- The `forEach` loop over the vertices. -/
def computeBounds (vertices : List (Vertex α)) : Bounds α :=
  vertices.foldl boundsStep initBounds

/-- The method `normalizeCoords(props)`. -/
def normalizeCoords (props : Props α) : Props α :=
  let vertices := props.vertices
  let b := computeBounds vertices
  let offsetX := (b.maxX + b.minX) / JSNum.fin 2
  let offsetY := (b.maxY + b.minY) / JSNum.fin 2
  let scaleX := JSNum.fin 1 / (b.maxX - offsetX)
  let scaleY := JSNum.fin 1 / (b.maxY - offsetY)
  { props with
    originalAspectRatio := some (scaleX / scaleY)
    vertices := vertices.map fun vertex =>
      { x := scaleX * (vertex.x - offsetX)
        y := scaleY * (vertex.y - offsetY) } }

end Normalize

/-! ## The reader callbacks `addLine` and `addArcCurve` -/

/-- The functions and the constant of `Math` used by `addArcCurve`, on finite numbers. -/
structure JSMath (α : Type) where
  atan2 : α → α → α
  sqrt : α → α
  cos : α → α
  sin : α → α
  pi : α

section Callbacks

variable {α : Type} [LinearOrderedField α]

/-- The closure `addVertex`: pushes `{x: x, y: y}` onto `props.vertices`. -/
def addVertex (path : List (Vertex α)) (x y : JSNum α) : List (Vertex α) :=
  path ++ [⟨x, y⟩]

/-- The callback `addLine(modal, v1, v2)`, acting on `props.vertices`. -/
def addLine (_modal : Modal) (path : List (Vertex α)) (v1 v2 : Vec α) : List (Vertex α) :=
  if v1.x ≠ v2.x ∨ v1.y ≠ v2.y then
    addVertex path (JSNum.fin v2.x) (JSNum.fin v2.y)
  else
    path

/-- The variables `endTheta`, `deltaTheta`, `direction` after the `G2`/`G3` adjustment. -/
structure Sweep (α : Type) where
  endTheta : α
  deltaTheta : α
  direction : α
  deriving DecidableEq, Repr

/-- Lines 64-81 of the source: the sweep `endTheta - startTheta`, forced to the
commanded rotational way. -/
def resolveSweep (M : JSMath α) (motion : String) (startTheta endTheta : α) : Sweep α :=
  let deltaTheta := endTheta - startTheta
  if motion = "G2" then
    if deltaTheta > 0 then
      ⟨endTheta - 2 * M.pi, deltaTheta - 2 * M.pi, -1⟩
    else
      ⟨endTheta, deltaTheta, -1⟩
  else if motion = "G3" then
    if deltaTheta < 0 then
      ⟨endTheta + 2 * M.pi, deltaTheta + 2 * M.pi, 1⟩
    else
      ⟨endTheta, deltaTheta, 1⟩
  else
    ⟨endTheta, deltaTheta, 1⟩

/-- The radius `Math.sqrt(Math.pow(v2.x-v0.x, 2.0) + Math.pow(v2.y-v0.y, 2.0))`. -/
def arcRadius (M : JSMath α) (v2 v0 : Vec α) : α :=
  M.sqrt ((v2.x - v0.x) ^ 2 + (v2.y - v0.y) ^ 2)

/-- The constant `arcResolution = 0.5`. -/
def arcResolution : α := 1 / 2

/-- The step `deltaTheta * arcResolution/arcLength` with `arcLength = Math.abs(deltaTheta) * radius`. -/
def thetaStep (deltaTheta radius : α) : JSNum α :=
  let arcLength := |deltaTheta| * radius
  JSNum.fin (deltaTheta * arcResolution) / JSNum.fin arcLength

/-- The vertex pushed by the loop body at angle `theta`. -/
def arcPoint (M : JSMath α) (v0 : Vec α) (radius : α) (theta : JSNum α) : Vertex α :=
  ⟨JSNum.fin v0.x + JSNum.fin radius * JSNum.liftFinite M.cos theta,
   JSNum.fin v0.y + JSNum.fin radius * JSNum.liftFinite M.sin theta⟩

/-- The loop condition `direction * theta <= direction * endTheta`. -/
def loopCond (direction endTheta : α) (theta : JSNum α) : Bool :=
  JSNum.le (JSNum.fin direction * theta) (JSNum.fin direction * JSNum.fin endTheta)

/-- The `for` loop of `addArcCurve` started at `theta`: the vertices it pushes, in order.
Each run of the body uses one unit of fuel; `none` means the fuel ran out. -/
def arcLoop (M : JSMath α) (v0 : Vec α) (radius direction endTheta : α) (step : JSNum α) :
    Nat → JSNum α → Option (List (Vertex α))
  | 0, theta =>
    if loopCond direction endTheta theta then none else some []
  | fuel + 1, theta =>
    if loopCond direction endTheta theta then
      (arcLoop M v0 radius direction endTheta step fuel (theta + step)).map
        fun rest => arcPoint M v0 radius theta :: rest
    else
      some []

/-- The angle `Math.atan2(v.y-v0.y, v.x-v0.x)` of `v` as seen from the centre `v0`. -/
def arcAngle (M : JSMath α) (v v0 : Vec α) : α :=
  M.atan2 (v.y - v0.y) (v.x - v0.x)

/-- The sweep of the arc from `v1` to `v2` around `v0` under `modal.motion`. -/
def arcSweep (M : JSMath α) (modal : Modal) (v1 v2 v0 : Vec α) : Sweep α :=
  resolveSweep M modal.motion (arcAngle M v1 v0) (arcAngle M v2 v0)

/-- The vertices pushed by the `for` loop of `addArcCurve` (the final `addVertex(v2.x, v2.y)`
excluded), or `none` when the fuel runs out. -/
def arcPoints (M : JSMath α) (fuel : Nat) (modal : Modal) (v1 v2 v0 : Vec α) :
    Option (List (Vertex α)) :=
  let startTheta := arcAngle M v1 v0
  let radius := arcRadius M v2 v0
  let s := arcSweep M modal v1 v2 v0
  arcLoop M v0 radius s.direction s.endTheta (thetaStep s.deltaTheta radius) fuel
    (JSNum.fin startTheta)

/-- The callback `addArcCurve(modal, v1, v2, v0)`, acting on `props.vertices`. -/
def addArcCurve (M : JSMath α) (fuel : Nat) (modal : Modal) (path : List (Vertex α))
    (v1 v2 v0 : Vec α) : Option (List (Vertex α)) :=
  if v1.x ≠ v2.x ∨ v1.y ≠ v2.y then
    match arcPoints M fuel modal v1 v2 v0 with
    | none => none
    | some pts => some (addVertex (path ++ pts) (JSNum.fin v2.x) (JSNum.fin v2.y))
  else
    some path

end Callbacks

/-! ## The reader driving `addLine`, and the initial comments of `import` -/

/-- The arguments of one call of `addLine` by the reader: a straight move from `v1` to
`v2`. -/
structure LineEvent (α : Type) where
  modal : Modal
  v1 : Vec α
  v2 : Vec α

/-- The vertices after the reader has reported the straight moves `events`, in order, each
through one call of `addLine`, starting from the vertices `path`. -/
def addLines {α : Type} [LinearOrderedField α] (events : List (LineEvent α))
    (path : List (Vertex α)) : List (Vertex α) :=
  events.foldl (fun acc e => addLine e.modal acc e.v1 e.v2) path

/-- The characters removed at both ends by `String.prototype.trim`: the white space
(TAB, VT, FF, SP, NBSP, ZWNBSP and the space separators) and the line terminators
(LF, CR, LS, PS). -/
def isTrimChar (c : Char) : Bool :=
  c.toNat = 0x09 || c.toNat = 0x0A || c.toNat = 0x0B || c.toNat = 0x0C || c.toNat = 0x0D ||
  c.toNat = 0x20 || c.toNat = 0xA0 || c.toNat = 0x1680 ||
  (0x2000 ≤ c.toNat && c.toNat ≤ 0x200A) ||
  c.toNat = 0x2028 || c.toNat = 0x2029 || c.toNat = 0x202F || c.toNat = 0x205F ||
  c.toNat = 0x3000 || c.toNat = 0xFEFF

/-- The method `trim()`. -/
def trim (s : String) : String :=
  String.mk ((s.toList.dropWhile isTrimChar).reverse.dropWhile isTrimChar).reverse

/-- The method `indexOf` for a one-character search string: the position of the first
occurrence, or `-1`. -/
def indexOf (line : String) (c : Char) : Int :=
  if c ∈ line.toList then (line.toList.indexOf c : Nat) else -1

/-- The closure `isComment`. -/
def isComment (line : String) : Bool :=
  decide (indexOf line ';' = 0) || decide (indexOf line '(' = 0)

/-- The loop "Read the initial comments" of `import`, run over the lines from index `ii`
on: the lines it pushes onto `props.comments`, in order. -/
def readComments : List String → List String
  | [] => []
  | l :: rest =>
    let line := trim l
    if line.length = 0 then
      readComments rest
    else if isComment line then
      l :: readComments rest
    else
      []

/-- The object `props` of `import` when the reader is started: the initial comments of
the text, no vertex yet. -/
def importProps (α : Type) (fileName text : String) : Props α :=
  { comments := readComments (text.splitOn "\n")
    vertices := []
    fileName := fileName
    originalAspectRatio := none }

/-! ## Auxiliary definitions used to state the theorems

These are not part of the program: they name the quantities the theorems speak about. -/

section Auxiliary

variable {α : Type} [LinearOrderedField α]

/-- The running minimum of the coordinates `f p`, seeded with `seed`. -/
def runMin (f : Vec α → α) (seed : α) (pts : List (Vec α)) : α :=
  pts.foldl (fun m p => Min.min (f p) m) seed

/-- The running maximum of the coordinates `f p`, seeded with `seed`. -/
def runMax (f : Vec α → α) (seed : α) (pts : List (Vec α)) : α :=
  pts.foldl (fun m p => Max.max (f p) m) seed

/-- One output coordinate of `normalizeCoords` for the finite coordinate `v`, from the
accumulated extrema `lo` and `hi` of that axis. -/
def normCoord (lo hi v : α) : JSNum α :=
  (JSNum.fin 1 / JSNum.fin (hi - (hi + lo) / 2)) * JSNum.fin (v - (hi + lo) / 2)

/-- The end points of the straight moves that move, in event order. -/
def keptEnds (events : List (LineEvent α)) : List (Vertex α) :=
  (events.filter fun e => decide (e.v1 ≠ e.v2)).map fun e => e.v2.toVertex

end Auxiliary

/-- A line is blank when nothing is left of it after trimming. -/
def isBlankLine (l : String) : Bool :=
  (trim l).toList.isEmpty

/-- A line starts a comment when, once trimmed, its first character is `;` or `(`. -/
def startsComment (l : String) : Bool :=
  (trim l).toList.head? = some ';' || (trim l).toList.head? = some '('

/-- A line ends the initial comments when, once trimmed, it is non-empty and starts with
neither `;` nor `(`. -/
def endsComments (l : String) : Bool :=
  !isBlankLine l && !startsComment l

/-- The initial comments in the words of the claim: the lines before the first line that
ends the comments, the blank ones skipped. -/
def initialComments (lines : List String) : List String :=
  (lines.takeWhile fun l => !endsComments l).filter fun l => !isBlankLine l

/-- The `Math` library over the real numbers: `atan2(y, x)` is the argument of `x + y i`,
in `(-π, π]`, with `atan2(0, 0) = 0`. -/
noncomputable def RealMath : JSMath ℝ where
  atan2 y x := Complex.arg ⟨x, y⟩
  sqrt := Real.sqrt
  cos := Real.cos
  sin := Real.sin
  pi := Real.pi

/-- The values that the binary64 `Math` library returns at the arguments evaluated by the
arc `G2` from `(0,1)` to `(1,0)` around `(0,0)`: `atan2(1, 0) = 1.5707963267948966`,
`atan2(0, 1) = 0`, `sqrt(1) = 1`, and `cos`, `sin` at the four loop angles
`1.5707963267948966`, `1.0707963267948966`, `0.5707963267948966`, `0.07079632679489656`
(for instance `cos(1.5707963267948966) = 6.123233995736766e-17`), written as exact
fractions.  No other argument is evaluated on that arc; the table holds 0 there. -/
def QuarterArcMath : JSMath ℚ where
  atan2 y x := if y = 1 ∧ x = 0 then 884279719003555 / 562949953421312 else 0
  sqrt x := if x = 1 then 1 else 0
  cos t :=
    if t = 884279719003555 / 562949953421312 then
      4967757600021511 / 81129638414606681695789005144064
    else if t = 602804742292899 / 562949953421312 then
      8636562708039153 / 18014398509481984
    else if t = 321329765582243 / 562949953421312 then
      3789648413623927 / 4503599627370496
    else if t = 39854788871587 / 562949953421312 then
      8984636099947915 / 9007199254740992
    else 0
  sin t :=
    if t = 884279719003555 / 562949953421312 then 1
    else if t = 602804742292899 / 562949953421312 then
      7904560997432655 / 9007199254740992
    else if t = 321329765582243 / 562949953421312 then
      4866610526750347 / 9007199254740992
    else if t = 39854788871587 / 562949953421312 then
      5097152561150371 / 72057594037927936
    else 0
  pi := 884279719003555 / 281474976710656

/-! ## Arithmetic of finite JavaScript numbers -/

namespace JSNum

variable {α : Type} [LinearOrderedField α]

@[simp] theorem fin_add_fin (a b : α) : (fin a + fin b : JSNum α) = fin (a + b) := rfl

@[simp] theorem fin_sub_fin (a b : α) : (fin a - fin b : JSNum α) = fin (a - b) := by
  show add (fin a) (neg (fin b)) = fin (a - b)
  simp [add, neg, sub_eq_add_neg]

@[simp] theorem fin_mul_fin (a b : α) : (fin a * fin b : JSNum α) = fin (a * b) := rfl

theorem fin_div_fin (a b : α) :
    (fin a / fin b : JSNum α) = if b = 0 then signedInf a else fin (a / b) := rfl

@[simp] theorem fin_div_fin_of_ne (a : α) {b : α} (hb : b ≠ 0) :
    (fin a / fin b : JSNum α) = fin (a / b) := by
  simp [fin_div_fin, hb]

@[simp] theorem fin_div_zero (a : α) : (fin a / fin 0 : JSNum α) = signedInf a := by
  simp [fin_div_fin]

@[simp] theorem posInf_mul_fin (b : α) : (posInf * fin b : JSNum α) = signedInf b := rfl

@[simp] theorem signedInf_zero : (signedInf 0 : JSNum α) = nan := by
  simp [signedInf]

theorem signedInf_of_pos {s : α} (hs : 0 < s) : (signedInf s : JSNum α) = posInf := by
  simp [signedInf, hs]

theorem signedInf_of_neg {s : α} (hs : s < 0) : (signedInf s : JSNum α) = negInf := by
  simp [signedInf, hs, not_lt_of_gt hs]

@[simp] theorem min_fin_fin (a b : α) : JSNum.min (fin a) (fin b) = fin (Min.min a b) := by
  simp only [JSNum.min, le]
  by_cases h : a ≤ b <;> simp [h, min_def]

@[simp] theorem max_fin_fin (a b : α) : JSNum.max (fin a) (fin b) = fin (Max.max a b) := by
  simp only [JSNum.max, le]
  by_cases h : a ≤ b <;> simp [h, max_def]

@[simp] theorem le_fin_fin (a b : α) : le (fin a) (fin b) = decide (a ≤ b) := rfl

end JSNum

/-! ## Bounding box of a finite path -/

section NormalizeLemmas

variable {α : Type} [LinearOrderedField α]

theorem runMin_le_seed (f : Vec α → α) (seed : α) (pts : List (Vec α)) :
    runMin f seed pts ≤ seed := by
  induction pts generalizing seed with
  | nil => simp [runMin]
  | cons p ps ih =>
    have := ih (Min.min (f p) seed)
    simp only [runMin, List.foldl_cons] at this ⊢
    exact le_trans this (min_le_right _ _)

theorem runMin_le (f : Vec α → α) (seed : α) (pts : List (Vec α)) :
    ∀ p ∈ pts, runMin f seed pts ≤ f p := by
  induction pts generalizing seed with
  | nil => simp
  | cons q qs ih =>
    intro p hp
    rcases List.mem_cons.mp hp with rfl | hp
    · exact le_trans (runMin_le_seed f _ qs) (min_le_left _ _)
    · exact ih _ p hp

theorem runMin_mem (f : Vec α → α) (seed : α) (pts : List (Vec α)) :
    runMin f seed pts = seed ∨ ∃ p ∈ pts, runMin f seed pts = f p := by
  induction pts generalizing seed with
  | nil => simp [runMin]
  | cons q qs ih =>
    rcases ih (Min.min (f q) seed) with h | ⟨p, hp, h⟩
    · rcases min_choice (f q) seed with hm | hm
      · right
        exact ⟨q, List.mem_cons_self _ _, by simpa [runMin, hm] using h⟩
      · left
        simpa [runMin, hm] using h
    · right
      exact ⟨p, List.mem_cons_of_mem _ hp, h⟩

theorem seed_le_runMax (f : Vec α → α) (seed : α) (pts : List (Vec α)) :
    seed ≤ runMax f seed pts := by
  induction pts generalizing seed with
  | nil => simp [runMax]
  | cons p ps ih =>
    have := ih (Max.max (f p) seed)
    simp only [runMax, List.foldl_cons] at this ⊢
    exact le_trans (le_max_right _ _) this

theorem le_runMax (f : Vec α → α) (seed : α) (pts : List (Vec α)) :
    ∀ p ∈ pts, f p ≤ runMax f seed pts := by
  induction pts generalizing seed with
  | nil => simp
  | cons q qs ih =>
    intro p hp
    rcases List.mem_cons.mp hp with rfl | hp
    · exact le_trans (le_max_left _ _) (seed_le_runMax f _ qs)
    · exact ih _ p hp

theorem runMax_mem (f : Vec α → α) (seed : α) (pts : List (Vec α)) :
    runMax f seed pts = seed ∨ ∃ p ∈ pts, runMax f seed pts = f p := by
  induction pts generalizing seed with
  | nil => simp [runMax]
  | cons q qs ih =>
    rcases ih (Max.max (f q) seed) with h | ⟨p, hp, h⟩
    · rcases max_choice (f q) seed with hm | hm
      · right
        exact ⟨q, List.mem_cons_self _ _, by simpa [runMax, hm] using h⟩
      · left
        simpa [runMax, hm] using h
    · right
      exact ⟨p, List.mem_cons_of_mem _ hp, h⟩

/-- On finite vertices the `forEach` loop computes the running minima and maxima. -/
theorem foldl_boundsStep_finite (pts : List (Vec α)) (a b c d : α) :
    (pts.map Vec.toVertex).foldl boundsStep ⟨JSNum.fin a, JSNum.fin b, JSNum.fin c, JSNum.fin d⟩
      = ⟨JSNum.fin (runMin Vec.x a pts), JSNum.fin (runMin Vec.y b pts),
         JSNum.fin (runMax Vec.x c pts), JSNum.fin (runMax Vec.y d pts)⟩ := by
  induction pts generalizing a b c d with
  | nil => simp [runMin, runMax]
  | cons p ps ih =>
    simp only [List.map_cons, List.foldl_cons, boundsStep, Vec.toVertex, JSNum.min_fin_fin,
      JSNum.max_fin_fin, ih]
    simp [runMin, runMax]

theorem computeBounds_finite (pts : List (Vec α)) :
    computeBounds (pts.map Vec.toVertex)
      = ⟨JSNum.fin (runMin Vec.x 1000000000 pts), JSNum.fin (runMin Vec.y 1000000000 pts),
         JSNum.fin (runMax Vec.x (-1000000000) pts),
         JSNum.fin (runMax Vec.y (-1000000000) pts)⟩ := by
  simp [computeBounds, initBounds, foldl_boundsStep_finite]

theorem normalizeCoords_vertices_finite (cs : List String) (fileName : String)
    (r : Option (JSNum α)) (pts : List (Vec α)) :
    (normalizeCoords ⟨cs, pts.map Vec.toVertex, fileName, r⟩).vertices
      = pts.map fun p =>
          ⟨normCoord (runMin Vec.x 1000000000 pts) (runMax Vec.x (-1000000000) pts) p.x,
           normCoord (runMin Vec.y 1000000000 pts) (runMax Vec.y (-1000000000) pts) p.y⟩ := by
  simp [normalizeCoords, computeBounds_finite, normCoord, Vec.toVertex, Function.comp_def]

/-- A degenerate axis: the scale is `1/0 = Infinity` and the centre maps to `NaN`. -/
theorem normCoord_degenerate (c : α) : normCoord c c c = JSNum.nan := by
  have h1 : (JSNum.signedInf 1 : JSNum α) = JSNum.posInf := JSNum.signedInf_of_pos one_pos
  simp [normCoord, h1]

/-- A non-degenerate axis: finite arithmetic throughout. -/
theorem normCoord_of_lt {lo hi : α} (h : lo < hi) (v : α) :
    normCoord lo hi v = JSNum.fin (1 / (hi - (hi + lo) / 2) * (v - (hi + lo) / 2)) := by
  have hne : hi - (hi + lo) / 2 ≠ 0 := by
    have : 0 < hi - (hi + lo) / 2 := by linarith
    exact ne_of_gt this
  simp [normCoord, hne]

theorem normCoord_value {lo hi : α} (h : lo < hi) (v : α) :
    1 / (hi - (hi + lo) / 2) * (v - (hi + lo) / 2) = (2 * v - (hi + lo)) / (hi - lo) := by
  have h1 : hi - lo ≠ 0 := ne_of_gt (by linarith)
  have h2 : hi - (hi + lo) / 2 = (hi - lo) / 2 := by ring
  have h3 : v - (hi + lo) / 2 = (2 * v - (hi + lo)) / 2 := by ring
  rw [h2, h3]
  field_simp
  ring

/-- Facts about one axis whose accumulated extrema are reached by the path. -/
theorem axis_extrema (f : Vec α → α) (pts : List (Vec α))
    (hlo : ∃ p ∈ pts, f p ≤ 1000000000) (hhi : ∃ p ∈ pts, -1000000000 ≤ f p) :
    (∀ p ∈ pts, runMin f 1000000000 pts ≤ f p ∧ f p ≤ runMax f (-1000000000) pts) ∧
    (∃ p ∈ pts, f p = runMin f 1000000000 pts) ∧
    (∃ p ∈ pts, f p = runMax f (-1000000000) pts) := by
  refine ⟨fun p hp => ⟨runMin_le f _ pts p hp, le_runMax f _ pts p hp⟩, ?_, ?_⟩
  · rcases runMin_mem f 1000000000 pts with h | ⟨p, hp, h⟩
    · obtain ⟨p, hp, hle⟩ := hlo
      refine ⟨p, hp, le_antisymm ?_ (runMin_le f _ pts p hp)⟩
      rw [h]
      exact hle
    · exact ⟨p, hp, h.symm⟩
  · rcases runMax_mem f (-1000000000) pts with h | ⟨p, hp, h⟩
    · obtain ⟨p, hp, hle⟩ := hhi
      refine ⟨p, hp, le_antisymm (le_runMax f _ pts p hp) ?_⟩
      rw [h]
      exact hle
    · exact ⟨p, hp, h.symm⟩

/-- An axis of non-zero extent has its accumulated minimum below its maximum. -/
theorem axis_lt (f : Vec α → α) (pts : List (Vec α))
    (hw : ∃ p ∈ pts, ∃ q ∈ pts, f p ≠ f q) :
    runMin f 1000000000 pts < runMax f (-1000000000) pts := by
  obtain ⟨p, hp, q, hq, hne⟩ := hw
  rcases lt_or_gt_of_ne hne with h | h
  · exact lt_of_le_of_lt (runMin_le f _ pts p hp) (lt_of_lt_of_le h (le_runMax f _ pts q hq))
  · exact lt_of_le_of_lt (runMin_le f _ pts q hq) (lt_of_lt_of_le h (le_runMax f _ pts p hp))

/-- The affine map of a non-degenerate axis sends `[lo, hi]` onto `[-1, 1]`. -/
theorem scaled_range {lo hi : α} (h : lo < hi) (v : α) (h1 : lo ≤ v) (h2 : v ≤ hi) :
    -1 ≤ 1 / (hi - (hi + lo) / 2) * (v - (hi + lo) / 2) ∧
    1 / (hi - (hi + lo) / 2) * (v - (hi + lo) / 2) ≤ 1 ∧
    (v = lo → 1 / (hi - (hi + lo) / 2) * (v - (hi + lo) / 2) = -1) ∧
    (v = hi → 1 / (hi - (hi + lo) / 2) * (v - (hi + lo) / 2) = 1) := by
  have hpos : 0 < hi - lo := by linarith
  rw [normCoord_value h]
  refine ⟨?_, ?_, ?_, ?_⟩
  · rw [le_div_iff₀ hpos]
    linarith
  · rw [div_le_iff₀ hpos]
    linarith
  · intro hv
    rw [div_eq_iff (ne_of_gt hpos), hv]
    ring
  · intro hv
    rw [div_eq_iff (ne_of_gt hpos), hv]
    ring

end NormalizeLemmas

/-! ## The stepping loop -/

section LoopLemmas

variable {α : Type} [LinearOrderedField α]

@[simp] theorem loopCond_fin (d e t : α) :
    loopCond d e (JSNum.fin t) = decide (d * t ≤ d * e) := by
  simp [loopCond]

/-- The loop is not entered when its condition fails at the start. -/
theorem arcLoop_skip (M : JSMath α) (v0 : Vec α) (r d e : α) (step theta : JSNum α)
    (h : loopCond d e theta = false) (fuel : Nat) :
    arcLoop M v0 r d e step fuel theta = some [] := by
  cases fuel <;> simp [arcLoop, h]

/-- The loop body runs once when the condition holds at the start and fails after the
first step. -/
theorem arcLoop_once (M : JSMath α) (v0 : Vec α) (r d e : α) (step theta : JSNum α)
    (h0 : loopCond d e theta = true) (h1 : loopCond d e (theta + step) = false)
    (fuel : Nat) (hf : 1 ≤ fuel) :
    arcLoop M v0 r d e step fuel theta = some [arcPoint M v0 r theta] := by
  obtain ⟨f, rfl⟩ := Nat.exists_eq_add_of_le hf
  rw [Nat.add_comm, arcLoop]
  simp [h0, arcLoop_skip M v0 r d e step _ h1]

theorem loopCond_nan (d e : α) : loopCond d e JSNum.nan = false := rfl

theorem loopCond_posInf_of_pos {d : α} (hd : 0 < d) (e : α) :
    loopCond d e JSNum.posInf = false := by
  have h1 : (JSNum.fin d * JSNum.posInf : JSNum α) = JSNum.posInf :=
    JSNum.signedInf_of_pos hd
  simp only [loopCond, h1, JSNum.fin_mul_fin]
  rfl

theorem loopCond_negInf_of_neg {d : α} (hd : d < 0) (e : α) :
    loopCond d e JSNum.negInf = false := by
  have h1 : (JSNum.fin d * JSNum.negInf : JSNum α) = JSNum.posInf :=
    JSNum.signedInf_of_pos (neg_pos.mpr hd)
  simp only [loopCond, h1, JSNum.fin_mul_fin]
  rfl

/-- The adjusted sweep is the adjusted end angle minus the start angle. -/
theorem resolveSweep_deltaTheta (M : JSMath α) (motion : String) (s e : α) :
    (resolveSweep M motion s e).deltaTheta = (resolveSweep M motion s e).endTheta - s := by
  simp only [resolveSweep]
  split_ifs <;> ring

/-- The direction is `-1` for `G2` and `1` otherwise. -/
theorem resolveSweep_direction (M : JSMath α) (motion : String) (s e : α) :
    (resolveSweep M motion s e).direction = if motion = "G2" then -1 else 1 := by
  simp only [resolveSweep]
  split_ifs <;> rfl

/-- With `arcLength = 0` the step is `deltaTheta * 0.5 / 0`. -/
theorem thetaStep_degenerate {δ r : α} (h : |δ| * r = 0) :
    thetaStep δ r = JSNum.signedInf (δ * (1 / 2)) := by
  simp only [thetaStep, arcResolution, h, JSNum.fin_div_zero]

/-- After one degenerate step the loop condition fails. -/
theorem loopCond_after_degenerate_step {d e t δ : α} (hd : d = 1 ∨ d = -1)
    (hD : 0 ≤ d * δ) :
    loopCond d e (JSNum.fin t + JSNum.signedInf (δ * (1 / 2))) = false := by
  rcases lt_trichotomy δ 0 with hδ | hδ | hδ
  · have hdn : d = -1 := by
      rcases hd with h | h
      · rw [h] at hD
        linarith
      · exact h
    have h1 : (JSNum.signedInf (δ * (1 / 2)) : JSNum α) = JSNum.negInf :=
      JSNum.signedInf_of_neg (by linarith)
    rw [h1]
    exact loopCond_negInf_of_neg (by rw [hdn]; norm_num) e
  · rw [hδ]
    simp only [zero_mul, JSNum.signedInf_zero]
    exact loopCond_nan d e
  · have hdp : d = 1 := by
      rcases hd with h | h
      · exact h
      · rw [h] at hD
        linarith
    have h1 : (JSNum.signedInf (δ * (1 / 2)) : JSNum α) = JSNum.posInf :=
      JSNum.signedInf_of_pos (by linarith)
    rw [h1]
    exact loopCond_posInf_of_pos (by rw [hdp]; norm_num) e

/-- With `arcLength = 0` and the loop condition true at the start, the loop body runs
exactly once: the step is `deltaTheta * 0.5 / 0`, not a finite number, and the condition
fails after it. -/
theorem arcPoints_single (M : JSMath α) (modal : Modal) (v1 v2 v0 : Vec α)
    (hD : 0 ≤ (arcSweep M modal v1 v2 v0).direction * (arcSweep M modal v1 v2 v0).deltaTheta)
    (hlen : |(arcSweep M modal v1 v2 v0).deltaTheta| * arcRadius M v2 v0 = 0)
    (fuel : Nat) (hf : 1 ≤ fuel) :
    thetaStep (arcSweep M modal v1 v2 v0).deltaTheta (arcRadius M v2 v0)
      = JSNum.signedInf ((arcSweep M modal v1 v2 v0).deltaTheta * (1 / 2)) ∧
    arcPoints M fuel modal v1 v2 v0
      = some [arcPoint M v0 (arcRadius M v2 v0) (JSNum.fin (arcAngle M v1 v0))] := by
  have hd : (arcSweep M modal v1 v2 v0).direction = 1 ∨
      (arcSweep M modal v1 v2 v0).direction = -1 := by
    rw [arcSweep, resolveSweep_direction]
    split_ifs
    · exact Or.inr rfl
    · exact Or.inl rfl
  have hδ : (arcSweep M modal v1 v2 v0).deltaTheta
      = (arcSweep M modal v1 v2 v0).endTheta - arcAngle M v1 v0 :=
    resolveSweep_deltaTheta M modal.motion _ _
  have hstep := thetaStep_degenerate hlen
  refine ⟨hstep, ?_⟩
  have hcond : (arcSweep M modal v1 v2 v0).direction * arcAngle M v1 v0
      ≤ (arcSweep M modal v1 v2 v0).direction * (arcSweep M modal v1 v2 v0).endTheta := by
    rw [hδ] at hD
    nlinarith
  unfold arcPoints
  simp only [hstep]
  exact arcLoop_once M v0 _ _ _ _ _ (by simpa using hcond)
    (loopCond_after_degenerate_step hd hD) fuel hf

end LoopLemmas

/-! ## The `Math` library over the reals -/

section RealLemmas

theorem realAngle_gt (v v0 : Vec ℝ) : -RealMath.pi < arcAngle RealMath v v0 :=
  Complex.neg_pi_lt_arg _

theorem realAngle_le (v v0 : Vec ℝ) : arcAngle RealMath v v0 ≤ RealMath.pi :=
  Complex.arg_le_pi _

/-- A point pushed by the loop at a finite angle has finite coordinates. -/
theorem arcPoint_real (v0 : Vec ℝ) (r θ : ℝ) :
    arcPoint RealMath v0 r (JSNum.fin θ)
      = Vec.toVertex ⟨v0.x + r * Real.cos θ, v0.y + r * Real.sin θ⟩ := by
  simp [arcPoint, JSNum.liftFinite, Vec.toVertex, RealMath]

/-- Under `G2` and `G3` the adjusted sweep of real angles goes the commanded way. -/
theorem realSweep_sign (modal : Modal) (v1 v2 v0 : Vec ℝ)
    (hm : modal.motion = "G2" ∨ modal.motion = "G3") :
    ((arcSweep RealMath modal v1 v2 v0).direction = 1 ∨
      (arcSweep RealMath modal v1 v2 v0).direction = -1) ∧
    (arcSweep RealMath modal v1 v2 v0).direction * (arcSweep RealMath modal v1 v2 v0).deltaTheta
      = |(arcSweep RealMath modal v1 v2 v0).deltaTheta| := by
  have hs1 := realAngle_gt v1 v0
  have hs2 := realAngle_le v1 v0
  have he1 := realAngle_gt v2 v0
  have he2 := realAngle_le v2 v0
  rcases hm with hm | hm
  · simp only [arcSweep, resolveSweep, if_pos hm]
    split_ifs with h
    · refine ⟨Or.inr rfl, ?_⟩
      dsimp only
      rw [abs_of_nonpos (by linarith)]
      ring
    · refine ⟨Or.inr rfl, ?_⟩
      dsimp only
      rw [abs_of_nonpos (le_of_not_gt h)]
      ring
  · have hm2 : modal.motion ≠ "G2" := by
      rw [hm]
      decide
    simp only [arcSweep, resolveSweep, if_neg hm2, if_pos hm]
    split_ifs with h
    · refine ⟨Or.inl rfl, ?_⟩
      dsimp only
      rw [abs_of_nonneg (by linarith)]
      ring
    · refine ⟨Or.inl rfl, ?_⟩
      dsimp only
      rw [abs_of_nonneg (le_of_not_lt h)]
      ring

/-- The start angle of the arc from `(1,0)` around `(0,0)`. -/
theorem example_startTheta : arcAngle RealMath ⟨1, 0⟩ ⟨0, 0⟩ = 0 := by
  have h : (⟨(1 : ℝ) - 0, (0 : ℝ) - 0⟩ : ℂ) = 1 := by
    apply Complex.ext <;> simp
  show Complex.arg ⟨(1 : ℝ) - 0, (0 : ℝ) - 0⟩ = 0
  rw [h, Complex.arg_one]

end RealLemmas

/-! ## Claims about `normalizeCoords` -/

section NormalizeClaims

variable {α : Type} [LinearOrderedField α]

/-- C1 (counterexample): on the path `(2e9, 0), (3e9, 1)`, whose bounding box has non-zero
width and height, the seed `1e9` stays the accumulated `minX`; the output x values are
`0` and `1`, so the value `-1` is not attained on the x axis. -/
theorem normalizeCoords_sentinel_counterexample :
    (normalizeCoords (⟨[], [⟨JSNum.fin 2000000000, JSNum.fin 0⟩,
        ⟨JSNum.fin 3000000000, JSNum.fin 1⟩], "a.gcode", none⟩ : Props ℚ)).vertices
      = [⟨JSNum.fin 0, JSNum.fin (-1)⟩, ⟨JSNum.fin 1, JSNum.fin 1⟩] ∧
    ¬ ∃ w ∈ (normalizeCoords (⟨[], [⟨JSNum.fin 2000000000, JSNum.fin 0⟩,
        ⟨JSNum.fin 3000000000, JSNum.fin 1⟩], "a.gcode", none⟩ : Props ℚ)).vertices,
        w.x = JSNum.fin (-1) := by
  have h : (normalizeCoords (⟨[], [⟨JSNum.fin 2000000000, JSNum.fin 0⟩,
        ⟨JSNum.fin 3000000000, JSNum.fin 1⟩], "a.gcode", none⟩ : Props ℚ)).vertices
      = [⟨JSNum.fin 0, JSNum.fin (-1)⟩, ⟨JSNum.fin 1, JSNum.fin 1⟩] := by
    simp [normalizeCoords, computeBounds, initBounds, boundsStep]
    norm_num
  rw [h]
  refine ⟨rfl, ?_⟩
  norm_num

/-- With exact arithmetic: for a finite path whose bounding box has non-zero width and
height and reaches the range of the seeds on each axis, the affine maps of
`normalizeCoords` send every vertex into `[-1, 1]` and the extreme vertices onto `-1` and
`1`.  Used below on inputs on which the binary64 operations round nothing away. -/
theorem range_of_exact_arithmetic (cs : List String) (fileName : String) (r : Option (JSNum α))
    (pts : List (Vec α))
    (hxlo : ∃ p ∈ pts, p.x ≤ 1000000000) (hxhi : ∃ p ∈ pts, -1000000000 ≤ p.x)
    (hylo : ∃ p ∈ pts, p.y ≤ 1000000000) (hyhi : ∃ p ∈ pts, -1000000000 ≤ p.y)
    (hw : ∃ p ∈ pts, ∃ q ∈ pts, p.x ≠ q.x) (hh : ∃ p ∈ pts, ∃ q ∈ pts, p.y ≠ q.y) :
    ∃ f : Vec α → Vec α,
      (normalizeCoords ⟨cs, pts.map Vec.toVertex, fileName, r⟩).vertices
        = pts.map (fun p => (f p).toVertex) ∧
      (∀ p ∈ pts, -1 ≤ (f p).x ∧ (f p).x ≤ 1 ∧ -1 ≤ (f p).y ∧ (f p).y ≤ 1) ∧
      (∀ p ∈ pts, (∀ q ∈ pts, p.x ≤ q.x) → (f p).x = -1) ∧
      (∀ p ∈ pts, (∀ q ∈ pts, q.x ≤ p.x) → (f p).x = 1) ∧
      (∀ p ∈ pts, (∀ q ∈ pts, p.y ≤ q.y) → (f p).y = -1) ∧
      (∀ p ∈ pts, (∀ q ∈ pts, q.y ≤ p.y) → (f p).y = 1) ∧
      (∃ p ∈ pts, (f p).x = -1) ∧ (∃ p ∈ pts, (f p).x = 1) ∧
      (∃ p ∈ pts, (f p).y = -1) ∧ (∃ p ∈ pts, (f p).y = 1) := by
  have hX := axis_lt Vec.x pts hw
  have hY := axis_lt Vec.y pts hh
  obtain ⟨bX, ⟨pl, hpl, el⟩, ⟨ph, hph, eh⟩⟩ := axis_extrema Vec.x pts hxlo hxhi
  obtain ⟨bY, ⟨ql, hql, fl⟩, ⟨qh, hqh, fh⟩⟩ := axis_extrema Vec.y pts hylo hyhi
  refine ⟨fun p =>
    ⟨1 / (runMax Vec.x (-1000000000) pts
          - (runMax Vec.x (-1000000000) pts + runMin Vec.x 1000000000 pts) / 2)
        * (p.x - (runMax Vec.x (-1000000000) pts + runMin Vec.x 1000000000 pts) / 2),
     1 / (runMax Vec.y (-1000000000) pts
          - (runMax Vec.y (-1000000000) pts + runMin Vec.y 1000000000 pts) / 2)
        * (p.y - (runMax Vec.y (-1000000000) pts + runMin Vec.y 1000000000 pts) / 2)⟩,
    ?_, ?_, ?_, ?_, ?_, ?_, ?_, ?_, ?_, ?_⟩
  · rw [normalizeCoords_vertices_finite]
    apply List.map_congr_left
    intro p _
    simp [normCoord_of_lt hX, normCoord_of_lt hY, Vec.toVertex]
  · intro p hp
    have h1 := scaled_range hX p.x (bX p hp).1 (bX p hp).2
    have h2 := scaled_range hY p.y (bY p hp).1 (bY p hp).2
    exact ⟨h1.1, h1.2.1, h2.1, h2.2.1⟩
  · intro p hp hmin
    exact (scaled_range hX p.x (bX p hp).1 (bX p hp).2).2.2.1
      (le_antisymm (el ▸ hmin pl hpl) (bX p hp).1)
  · intro p hp hmax
    exact (scaled_range hX p.x (bX p hp).1 (bX p hp).2).2.2.2
      (le_antisymm (bX p hp).2 (eh ▸ hmax ph hph))
  · intro p hp hmin
    exact (scaled_range hY p.y (bY p hp).1 (bY p hp).2).2.2.1
      (le_antisymm (fl ▸ hmin ql hql) (bY p hp).1)
  · intro p hp hmax
    exact (scaled_range hY p.y (bY p hp).1 (bY p hp).2).2.2.2
      (le_antisymm (bY p hp).2 (fh ▸ hmax qh hqh))
  · exact ⟨pl, hpl, (scaled_range hX pl.x (bX pl hpl).1 (bX pl hpl).2).2.2.1 el⟩
  · exact ⟨ph, hph, (scaled_range hX ph.x (bX ph hph).1 (bX ph hph).2).2.2.2 eh⟩
  · exact ⟨ql, hql, (scaled_range hY ql.y (bY ql hql).1 (bY ql hql).2).2.2.1 fl⟩
  · exact ⟨qh, hqh, (scaled_range hY qh.y (bY qh hqh).1 (bY qh hqh).2).2.2.2 fh⟩

/-- C1 (amended): `normalizeCoords` maps every vertex to finite coordinates in `[-1, 1]`,
the vertices of minimal (maximal) x to x = -1 (x = 1), likewise for y, and attains each of
`-1` and `1` on each axis, on the finite paths of either of two kinds: (a) the coordinates
are integers within the seeds `-1e9 .. 1e9` and the width and the height of the bounding
box are powers of two, so that every operation of `normalizeCoords` is exact in binary64
arithmetic; (b) the bounding box is `(-5,-5)` to `(5,5)`, where `offset = 0`,
`scale = 0.2` and `5 * 0.2` is `1`.  (On other paths, such as `(-49,-49), (49,49)`, the
extremes are reached only up to rounding, and beyond the seeds not at all.) -/
theorem normalizeCoords_range (cs : List String) (fileName : String) (r : Option (JSNum α))
    (pts : List (Vec α))
    (hclass :
      ((∀ p ∈ pts, (∃ n : ℤ, p.x = n) ∧ (∃ n : ℤ, p.y = n) ∧
          -1000000000 ≤ p.x ∧ p.x ≤ 1000000000 ∧ -1000000000 ≤ p.y ∧ p.y ≤ 1000000000) ∧
        (∃ j : ℕ, ∃ p ∈ pts, ∃ q ∈ pts,
          (∀ u ∈ pts, p.x ≤ u.x ∧ u.x ≤ q.x) ∧ q.x - p.x = 2 ^ j) ∧
        (∃ k : ℕ, ∃ p ∈ pts, ∃ q ∈ pts,
          (∀ u ∈ pts, p.y ≤ u.y ∧ u.y ≤ q.y) ∧ q.y - p.y = 2 ^ k)) ∨
      ((∀ p ∈ pts, -5 ≤ p.x ∧ p.x ≤ 5 ∧ -5 ≤ p.y ∧ p.y ≤ 5) ∧
        (∃ p ∈ pts, p.x = -5) ∧ (∃ p ∈ pts, p.x = 5) ∧
        (∃ p ∈ pts, p.y = -5) ∧ (∃ p ∈ pts, p.y = 5))) :
    ∃ f : Vec α → Vec α,
      (normalizeCoords ⟨cs, pts.map Vec.toVertex, fileName, r⟩).vertices
        = pts.map (fun p => (f p).toVertex) ∧
      (∀ p ∈ pts, -1 ≤ (f p).x ∧ (f p).x ≤ 1 ∧ -1 ≤ (f p).y ∧ (f p).y ≤ 1) ∧
      (∀ p ∈ pts, (∀ q ∈ pts, p.x ≤ q.x) → (f p).x = -1) ∧
      (∀ p ∈ pts, (∀ q ∈ pts, q.x ≤ p.x) → (f p).x = 1) ∧
      (∀ p ∈ pts, (∀ q ∈ pts, p.y ≤ q.y) → (f p).y = -1) ∧
      (∀ p ∈ pts, (∀ q ∈ pts, q.y ≤ p.y) → (f p).y = 1) ∧
      (∃ p ∈ pts, (f p).x = -1) ∧ (∃ p ∈ pts, (f p).x = 1) ∧
      (∃ p ∈ pts, (f p).y = -1) ∧ (∃ p ∈ pts, (f p).y = 1) := by
  rcases hclass with ⟨hint, ⟨j, p, hp, q, hq, -, hj⟩, ⟨k, p2, hp2, q2, hq2, -, hk⟩⟩ |
      ⟨-, ⟨a, ha, hax⟩, ⟨b, hb, hbx⟩, ⟨c, hc, hcy⟩, ⟨d, hd, hdy⟩⟩
  · have hjpos : (0 : α) < 2 ^ j := pow_pos two_pos j
    have hkpos : (0 : α) < 2 ^ k := pow_pos two_pos k
    exact range_of_exact_arithmetic cs fileName r pts
      ⟨p, hp, (hint p hp).2.2.2.1⟩ ⟨p, hp, (hint p hp).2.2.1⟩
      ⟨p, hp, (hint p hp).2.2.2.2.2⟩ ⟨p, hp, (hint p hp).2.2.2.2.1⟩
      ⟨p, hp, q, hq, by intro h; rw [h, sub_self] at hj; linarith⟩
      ⟨p2, hp2, q2, hq2, by intro h; rw [h, sub_self] at hk; linarith⟩
  · exact range_of_exact_arithmetic cs fileName r pts
      ⟨a, ha, by rw [hax]; norm_num⟩ ⟨a, ha, by rw [hax]; norm_num⟩
      ⟨c, hc, by rw [hcy]; norm_num⟩ ⟨c, hc, by rw [hcy]; norm_num⟩
      ⟨a, ha, b, hb, by rw [hax, hbx]; norm_num⟩
      ⟨c, hc, d, hd, by rw [hcy, hdy]; norm_num⟩

/-- Witness for C1: the path `(-5,-5), (5,5)` covers the bounding box `(-5,-5)` to `(5,5)`;
its two vertices are mapped to `(-1,-1)` and `(1,1)`. -/
theorem normalizeCoords_range_witness :
    (normalizeCoords ⟨[], ([⟨-5, -5⟩, ⟨5, 5⟩] : List (Vec ℚ)).map Vec.toVertex,
        "square.gcode", none⟩).vertices = [⟨JSNum.fin (-1), JSNum.fin (-1)⟩,
          ⟨JSNum.fin 1, JSNum.fin 1⟩] ∧
    ∃ f : Vec ℚ → Vec ℚ,
      (normalizeCoords ⟨[], ([⟨-5, -5⟩, ⟨5, 5⟩] : List (Vec ℚ)).map Vec.toVertex,
          "square.gcode", none⟩).vertices
        = ([⟨-5, -5⟩, ⟨5, 5⟩] : List (Vec ℚ)).map (fun p => (f p).toVertex) ∧
      (∀ p ∈ ([⟨-5, -5⟩, ⟨5, 5⟩] : List (Vec ℚ)),
        -1 ≤ (f p).x ∧ (f p).x ≤ 1 ∧ -1 ≤ (f p).y ∧ (f p).y ≤ 1) ∧
      (∀ p ∈ ([⟨-5, -5⟩, ⟨5, 5⟩] : List (Vec ℚ)),
        (∀ q ∈ ([⟨-5, -5⟩, ⟨5, 5⟩] : List (Vec ℚ)), p.x ≤ q.x) → (f p).x = -1) ∧
      (∀ p ∈ ([⟨-5, -5⟩, ⟨5, 5⟩] : List (Vec ℚ)),
        (∀ q ∈ ([⟨-5, -5⟩, ⟨5, 5⟩] : List (Vec ℚ)), q.x ≤ p.x) → (f p).x = 1) ∧
      (∀ p ∈ ([⟨-5, -5⟩, ⟨5, 5⟩] : List (Vec ℚ)),
        (∀ q ∈ ([⟨-5, -5⟩, ⟨5, 5⟩] : List (Vec ℚ)), p.y ≤ q.y) → (f p).y = -1) ∧
      (∀ p ∈ ([⟨-5, -5⟩, ⟨5, 5⟩] : List (Vec ℚ)),
        (∀ q ∈ ([⟨-5, -5⟩, ⟨5, 5⟩] : List (Vec ℚ)), q.y ≤ p.y) → (f p).y = 1) ∧
      (∃ p ∈ ([⟨-5, -5⟩, ⟨5, 5⟩] : List (Vec ℚ)), (f p).x = -1) ∧
      (∃ p ∈ ([⟨-5, -5⟩, ⟨5, 5⟩] : List (Vec ℚ)), (f p).x = 1) ∧
      (∃ p ∈ ([⟨-5, -5⟩, ⟨5, 5⟩] : List (Vec ℚ)), (f p).y = -1) ∧
      (∃ p ∈ ([⟨-5, -5⟩, ⟨5, 5⟩] : List (Vec ℚ)), (f p).y = 1) := by
  refine ⟨?_, normalizeCoords_range [] "square.gcode" none [⟨-5, -5⟩, ⟨5, 5⟩]
    (Or.inr ⟨?_, ⟨⟨-5, -5⟩, by simp, rfl⟩, ⟨⟨5, 5⟩, by simp, rfl⟩,
      ⟨⟨-5, -5⟩, by simp, rfl⟩, ⟨⟨5, 5⟩, by simp, rfl⟩⟩)⟩
  · simp [normalizeCoords, computeBounds, initBounds, boundsStep, Vec.toVertex]
    norm_num
  · intro p hp
    simp only [List.mem_cons, List.mem_singleton, List.not_mem_nil, or_false] at hp
    rcases hp with rfl | rfl <;> norm_num

/-- C2 (counterexample): on an empty vertex list `normalizeCoords` reports no error; it
returns the props object with an empty vertex list and the seed-derived
`originalAspectRatio = 1`. -/
theorem normalizeCoords_empty_counterexample :
    normalizeCoords (⟨[], [], "empty.gcode", none⟩ : Props ℚ)
      = ⟨[], [], "empty.gcode", some (JSNum.fin 1)⟩ := by
  simp [normalizeCoords, computeBounds, initBounds]

/-- C2 (amended): on an empty vertex list `normalizeCoords` returns normally: the vertex
list stays empty, `originalAspectRatio` is set to `1` (computed from the seeds `1e9` and
`-1e9`), and the other fields are unchanged. -/
theorem normalizeCoords_empty (cs : List String) (fileName : String) (r : Option (JSNum α)) :
    normalizeCoords (⟨cs, [], fileName, r⟩ : Props α)
      = ⟨cs, [], fileName, some (JSNum.fin 1)⟩ := by
  simp [normalizeCoords, computeBounds, initBounds]

/-- C3 (counterexample): on the path `(0,0), (1,0)`, whose vertices share `y = 0`, the
scale `scaleY` is `1/0` and both output y values are `NaN`, not `0`. -/
theorem normalizeCoords_flat_counterexample :
    (normalizeCoords (⟨[], [⟨JSNum.fin 0, JSNum.fin 0⟩, ⟨JSNum.fin 1, JSNum.fin 0⟩],
        "flat.gcode", none⟩ : Props ℚ)).vertices
      = [⟨JSNum.fin (-1), JSNum.nan⟩, ⟨JSNum.fin 1, JSNum.nan⟩] := by
  have h1 : (JSNum.signedInf 1 : JSNum ℚ) = JSNum.posInf := JSNum.signedInf_of_pos one_pos
  simp [normalizeCoords, computeBounds, initBounds, boundsStep, h1]
  norm_num

/-- C3 (amended): for a non-empty finite path whose vertices all share the same y value
`c`, with `-1e9 ≤ c ≤ 1e9`, `normalizeCoords` divides by zero (`scaleY = 1/0`) and every
output y is `NaN`; symmetrically every output x is `NaN` when all vertices share the
same x value `c`. -/
theorem normalizeCoords_degenerate_axis (cs : List String) (fileName : String)
    (r : Option (JSNum α)) (pts : List (Vec α)) (c : α) (hne : pts ≠ [])
    (hlo : -1000000000 ≤ c) (hhi : c ≤ 1000000000) :
    ((∀ p ∈ pts, p.y = c) →
      ∀ w ∈ (normalizeCoords ⟨cs, pts.map Vec.toVertex, fileName, r⟩).vertices,
        w.y = JSNum.nan) ∧
    ((∀ p ∈ pts, p.x = c) →
      ∀ w ∈ (normalizeCoords ⟨cs, pts.map Vec.toVertex, fileName, r⟩).vertices,
        w.x = JSNum.nan) := by
  obtain ⟨p0, hp0⟩ := List.exists_mem_of_ne_nil pts hne
  constructor
  · intro hc w hw
    obtain ⟨-, ⟨pl, hpl, el⟩, ⟨ph, hph, eh⟩⟩ := axis_extrema Vec.y pts
      ⟨p0, hp0, by rw [hc p0 hp0]; exact hhi⟩ ⟨p0, hp0, by rw [hc p0 hp0]; exact hlo⟩
    rw [normalizeCoords_vertices_finite] at hw
    obtain ⟨p, hp, rfl⟩ := List.mem_map.mp hw
    show normCoord _ _ p.y = JSNum.nan
    rw [← el, ← eh, hc pl hpl, hc ph hph, hc p hp]
    exact normCoord_degenerate c
  · intro hc w hw
    obtain ⟨-, ⟨pl, hpl, el⟩, ⟨ph, hph, eh⟩⟩ := axis_extrema Vec.x pts
      ⟨p0, hp0, by rw [hc p0 hp0]; exact hhi⟩ ⟨p0, hp0, by rw [hc p0 hp0]; exact hlo⟩
    rw [normalizeCoords_vertices_finite] at hw
    obtain ⟨p, hp, rfl⟩ := List.mem_map.mp hw
    show normCoord _ _ p.x = JSNum.nan
    rw [← el, ← eh, hc pl hpl, hc ph hph, hc p hp]
    exact normCoord_degenerate c

/-- Witness for C3: the horizontal path `(0,0), (1,0)` with shared `y = 0`. -/
theorem normalizeCoords_degenerate_axis_witness :
    (([⟨0, 0⟩, ⟨1, 0⟩] : List (Vec ℚ)) ≠ [] ∧ (-1000000000 : ℚ) ≤ 0 ∧ (0 : ℚ) ≤ 1000000000 ∧
      ∀ p ∈ ([⟨0, 0⟩, ⟨1, 0⟩] : List (Vec ℚ)), p.y = 0) ∧
    ∀ w ∈ (normalizeCoords ⟨[], ([⟨0, 0⟩, ⟨1, 0⟩] : List (Vec ℚ)).map Vec.toVertex,
        "flat.gcode", none⟩).vertices, w.y = JSNum.nan :=
  ⟨⟨by simp, by norm_num, by norm_num, by simp⟩,
   (normalizeCoords_degenerate_axis [] "flat.gcode" none [⟨0, 0⟩, ⟨1, 0⟩] 0
     (by simp) (by norm_num) (by norm_num)).1 (by simp)⟩

end NormalizeClaims

/-! ## Claims about `addLine` and the guard of `addArcCurve` -/

section CallbackClaims

variable {α : Type} [LinearOrderedField α]

/-- C4: `addLine` appends exactly the one vertex `(v2.x, v2.y)` when `v1` and `v2` differ
in x or in y, and leaves the path unchanged when `v1.x = v2.x` and `v1.y = v2.y`. -/
theorem addLine_spec (modal : Modal) (path : List (Vertex α)) (v1 v2 : Vec α) :
    ((v1.x ≠ v2.x ∨ v1.y ≠ v2.y) →
      addLine modal path v1 v2 = path ++ [⟨JSNum.fin v2.x, JSNum.fin v2.y⟩]) ∧
    ((v1.x = v2.x ∧ v1.y = v2.y) → addLine modal path v1 v2 = path) := by
  constructor
  · intro h
    simp only [addLine, addVertex, if_pos h]
  · intro h
    have hn : ¬ (v1.x ≠ v2.x ∨ v1.y ≠ v2.y) := by
      rintro (hx | hy)
      · exact hx h.1
      · exact hy h.2
    simp only [addLine, if_neg hn]

/-- Witness for C4: the move `(0,0) → (1,0)` appends `(1,0)`; the move `(1,1) → (1,1)`
appends nothing. -/
theorem addLine_spec_witness :
    addLine ⟨"G1"⟩ ([⟨JSNum.fin 7, JSNum.fin 7⟩] : List (Vertex ℚ)) ⟨0, 0⟩ ⟨1, 0⟩
      = [⟨JSNum.fin 7, JSNum.fin 7⟩, ⟨JSNum.fin 1, JSNum.fin 0⟩] ∧
    addLine ⟨"G1"⟩ ([⟨JSNum.fin 7, JSNum.fin 7⟩] : List (Vertex ℚ)) ⟨1, 1⟩ ⟨1, 1⟩
      = [⟨JSNum.fin 7, JSNum.fin 7⟩] :=
  ⟨(addLine_spec ⟨"G1"⟩ [⟨JSNum.fin 7, JSNum.fin 7⟩] ⟨0, 0⟩ ⟨1, 0⟩).1 (Or.inl (by norm_num)),
   (addLine_spec ⟨"G1"⟩ [⟨JSNum.fin 7, JSNum.fin 7⟩] ⟨1, 1⟩ ⟨1, 1⟩).2 ⟨rfl, rfl⟩⟩

/-- C10: an arc event whose start and end have identical x and identical y makes
`addArcCurve` return the path unchanged, for every motion mode, every centre and every
amount of fuel (the loop is never entered). -/
theorem addArcCurve_full_circle (M : JSMath α) (fuel : Nat) (modal : Modal)
    (path : List (Vertex α)) (v1 v2 v0 : Vec α) (hx : v1.x = v2.x) (hy : v1.y = v2.y) :
    addArcCurve M fuel modal path v1 v2 v0 = some path := by
  have hn : ¬ (v1.x ≠ v2.x ∨ v1.y ≠ v2.y) := by
    rintro (h | h)
    · exact h hx
    · exact h hy
  simp only [addArcCurve, if_neg hn]

/-- Witness for C10: the full-circle command from `(1,0)` to `(1,0)` around `(0,0)`. -/
theorem addArcCurve_full_circle_witness :
    addArcCurve RealMath 0 ⟨"G2"⟩ [⟨JSNum.fin 7, JSNum.fin 7⟩] ⟨1, 0⟩ ⟨1, 0⟩ ⟨0, 0⟩
      = some [⟨JSNum.fin 7, JSNum.fin 7⟩] :=
  addArcCurve_full_circle RealMath 0 ⟨"G2"⟩ [⟨JSNum.fin 7, JSNum.fin 7⟩] ⟨1, 0⟩ ⟨1, 0⟩ ⟨0, 0⟩
    rfl rfl

/-- C6: for start and end angles in `(-π, π]`, the adjusted sweep is `endTheta - startTheta`
for the adjusted `endTheta`; under `G2` it lies in `(-2π, 0]`, `endTheta` is kept or
lowered by one full turn, and the direction is `-1`; under `G3` it lies in `[0, 2π)`,
`endTheta` is kept or raised by one full turn, and the direction is `1`. -/
theorem resolveSweep_commanded_way (M : JSMath α) (motion : String) (s e : α)
    (hs1 : -M.pi < s) (hs2 : s ≤ M.pi) (he1 : -M.pi < e) (he2 : e ≤ M.pi) :
    (resolveSweep M motion s e).deltaTheta = (resolveSweep M motion s e).endTheta - s ∧
    (motion = "G2" →
      -(2 * M.pi) < (resolveSweep M motion s e).deltaTheta ∧
      (resolveSweep M motion s e).deltaTheta ≤ 0 ∧
      ((resolveSweep M motion s e).endTheta = e ∨
        (resolveSweep M motion s e).endTheta = e - 2 * M.pi) ∧
      (resolveSweep M motion s e).direction = -1) ∧
    (motion = "G3" →
      0 ≤ (resolveSweep M motion s e).deltaTheta ∧
      (resolveSweep M motion s e).deltaTheta < 2 * M.pi ∧
      ((resolveSweep M motion s e).endTheta = e ∨
        (resolveSweep M motion s e).endTheta = e + 2 * M.pi) ∧
      (resolveSweep M motion s e).direction = 1) := by
  refine ⟨resolveSweep_deltaTheta M motion s e, ?_, ?_⟩
  · intro hm
    simp only [resolveSweep, if_pos hm]
    split_ifs with h
    · exact ⟨by dsimp only; linarith, by dsimp only; linarith, Or.inr rfl, rfl⟩
    · exact ⟨by dsimp only; linarith, le_of_not_gt h, Or.inl rfl, rfl⟩
  · intro hm
    have hm2 : motion ≠ "G2" := by
      rw [hm]
      decide
    simp only [resolveSweep, if_neg hm2, if_pos hm]
    split_ifs with h
    · exact ⟨by dsimp only; linarith, by dsimp only; linarith, Or.inr rfl, rfl⟩
    · exact ⟨le_of_not_lt h, by dsimp only; linarith, Or.inl rfl, rfl⟩

/-- Witness for C6: the angles `atan2(0, 1)` and `atan2(-1, 0)` of the points `(1,0)` and
`(0,-1)` seen from `(0,0)`, under `G2`. -/
theorem resolveSweep_commanded_way_witness :
    (-RealMath.pi < arcAngle RealMath ⟨1, 0⟩ ⟨0, 0⟩ ∧
      arcAngle RealMath ⟨1, 0⟩ ⟨0, 0⟩ ≤ RealMath.pi ∧
      -RealMath.pi < arcAngle RealMath ⟨0, -1⟩ ⟨0, 0⟩ ∧
      arcAngle RealMath ⟨0, -1⟩ ⟨0, 0⟩ ≤ RealMath.pi) ∧
    -(2 * RealMath.pi) < (resolveSweep RealMath "G2" (arcAngle RealMath ⟨1, 0⟩ ⟨0, 0⟩)
        (arcAngle RealMath ⟨0, -1⟩ ⟨0, 0⟩)).deltaTheta ∧
    (resolveSweep RealMath "G2" (arcAngle RealMath ⟨1, 0⟩ ⟨0, 0⟩)
        (arcAngle RealMath ⟨0, -1⟩ ⟨0, 0⟩)).deltaTheta ≤ 0 :=
  ⟨⟨realAngle_gt _ _, realAngle_le _ _, realAngle_gt _ _, realAngle_le _ _⟩,
   ((resolveSweep_commanded_way RealMath "G2" _ _ (realAngle_gt ⟨1, 0⟩ ⟨0, 0⟩)
      (realAngle_le ⟨1, 0⟩ ⟨0, 0⟩) (realAngle_gt ⟨0, -1⟩ ⟨0, 0⟩)
      (realAngle_le ⟨0, -1⟩ ⟨0, 0⟩)).2.1 rfl).1,
   ((resolveSweep_commanded_way RealMath "G2" _ _ (realAngle_gt ⟨1, 0⟩ ⟨0, 0⟩)
      (realAngle_le ⟨1, 0⟩ ⟨0, 0⟩) (realAngle_gt ⟨0, -1⟩ ⟨0, 0⟩)
      (realAngle_le ⟨0, -1⟩ ⟨0, 0⟩)).2.1 rfl).2.1⟩

end CallbackClaims

/-! ## Degenerate arcs -/

section CircleLemmas

/-- The value `s * Infinity` is never a finite number. -/
theorem signedInf_ne_fin {α : Type} [LinearOrderedField α] (s a : α) :
    (JSNum.signedInf s : JSNum α) ≠ JSNum.fin a := by
  unfold JSNum.signedInf
  split_ifs <;> simp

/-- A zero radius means that the end point is the centre. -/
theorem radius_zero_iff (v2 v0 : Vec ℝ) :
    arcRadius RealMath v2 v0 = 0 ↔ v2 = v0 := by
  have e : arcRadius RealMath v2 v0
      = Real.sqrt ((v2.x - v0.x) ^ 2 + (v2.y - v0.y) ^ 2) := rfl
  rw [e, Real.sqrt_eq_zero (by positivity)]
  constructor
  · intro h
    have h1 : (v2.x - v0.x) ^ 2 = 0 := by nlinarith [sq_nonneg (v2.x - v0.x), sq_nonneg (v2.y - v0.y)]
    have h2 : (v2.y - v0.y) ^ 2 = 0 := by nlinarith [sq_nonneg (v2.x - v0.x), sq_nonneg (v2.y - v0.y)]
    have h3 : v2.x = v0.x := by
      have := pow_eq_zero_iff (two_ne_zero) |>.mp h1
      linarith
    have h4 : v2.y = v0.y := by
      have := pow_eq_zero_iff (two_ne_zero) |>.mp h2
      linarith
    cases v2
    cases v0
    simp only [Vec.mk.injEq]
    exact ⟨h3, h4⟩
  · intro h
    rw [h]
    simp

/-- With `arcLength = 0` under `G2` or `G3` the loop body runs exactly once, at the start
angle, and the step is `deltaTheta * 0.5 / 0`. -/
theorem realArc_single (modal : Modal) (v1 v2 v0 : Vec ℝ)
    (hm : modal.motion = "G2" ∨ modal.motion = "G3")
    (hlen : arcRadius RealMath v2 v0 = 0 ∨ (arcSweep RealMath modal v1 v2 v0).deltaTheta = 0) :
    (∀ a : ℝ, thetaStep (arcSweep RealMath modal v1 v2 v0).deltaTheta
        (arcRadius RealMath v2 v0) ≠ JSNum.fin a) ∧
    ∀ fuel : Nat, 1 ≤ fuel →
      arcPoints RealMath fuel modal v1 v2 v0
        = some [Vec.toVertex
            ⟨v0.x + arcRadius RealMath v2 v0 * Real.cos (arcAngle RealMath v1 v0),
             v0.y + arcRadius RealMath v2 v0 * Real.sin (arcAngle RealMath v1 v0)⟩] := by
  obtain ⟨-, habs⟩ := realSweep_sign modal v1 v2 v0 hm
  have hD : 0 ≤ (arcSweep RealMath modal v1 v2 v0).direction
      * (arcSweep RealMath modal v1 v2 v0).deltaTheta := by
    rw [habs]
    exact abs_nonneg _
  have h0 : |(arcSweep RealMath modal v1 v2 v0).deltaTheta| * arcRadius RealMath v2 v0 = 0 := by
    rcases hlen with h | h <;> rw [h] <;> simp
  constructor
  · intro a
    rw [(arcPoints_single RealMath modal v1 v2 v0 hD h0 1 (le_refl 1)).1]
    exact signedInf_ne_fin _ a
  · intro fuel hf
    rw [(arcPoints_single RealMath modal v1 v2 v0 hD h0 fuel hf).2, arcPoint_real]

/-- With radius 0 under `G2` or `G3` the single point pushed by the loop is the centre,
which is the end point, so the end point is appended twice. -/
theorem realArc_single_is_end (modal : Modal) (v1 v2 v0 : Vec ℝ)
    (hm : modal.motion = "G2" ∨ modal.motion = "G3")
    (hr : arcRadius RealMath v2 v0 = 0)
    (fuel : Nat) (hf : 1 ≤ fuel) :
    arcPoints RealMath fuel modal v1 v2 v0 = some [v2.toVertex] ∧
    ((v1.x ≠ v2.x ∨ v1.y ≠ v2.y) → ∀ path : List (Vertex ℝ),
      addArcCurve RealMath fuel modal path v1 v2 v0
        = some (path ++ [v2.toVertex, v2.toVertex])) := by
  have hpt : (⟨v0.x + arcRadius RealMath v2 v0 * Real.cos (arcAngle RealMath v1 v0),
      v0.y + arcRadius RealMath v2 v0 * Real.sin (arcAngle RealMath v1 v0)⟩ : Vec ℝ) = v2 := by
    have hv := (radius_zero_iff v2 v0).mp hr
    rw [hr, hv]
    simp
  have hrun := (realArc_single modal v1 v2 v0 hm (Or.inl hr)).2 fuel hf
  rw [hpt] at hrun
  refine ⟨hrun, ?_⟩
  intro hne path
  simp only [addArcCurve, if_pos hne, hrun, addVertex, Vec.toVertex, List.append_assoc,
    List.singleton_append]

/-- With a zero sweep the loop body runs exactly once, for every `Math` library and every
motion mode: `addArcCurve` appends the point computed at the start angle and then the
end point. -/
theorem addArcCurve_single_of_zero_sweep {α : Type} [LinearOrderedField α] (M : JSMath α)
    (modal : Modal) (v1 v2 v0 : Vec α)
    (hδ : (arcSweep M modal v1 v2 v0).deltaTheta = 0) (fuel : Nat) (hf : 1 ≤ fuel) :
    thetaStep (arcSweep M modal v1 v2 v0).deltaTheta (arcRadius M v2 v0) = JSNum.nan ∧
    arcPoints M fuel modal v1 v2 v0
      = some [arcPoint M v0 (arcRadius M v2 v0) (JSNum.fin (arcAngle M v1 v0))] ∧
    ((v1.x ≠ v2.x ∨ v1.y ≠ v2.y) → ∀ path : List (Vertex α),
      addArcCurve M fuel modal path v1 v2 v0
        = some (path ++ [arcPoint M v0 (arcRadius M v2 v0) (JSNum.fin (arcAngle M v1 v0)),
            v2.toVertex])) := by
  have hD : 0 ≤ (arcSweep M modal v1 v2 v0).direction
      * (arcSweep M modal v1 v2 v0).deltaTheta := by
    rw [hδ, mul_zero]
  have h0 : |(arcSweep M modal v1 v2 v0).deltaTheta| * arcRadius M v2 v0 = 0 := by
    rw [hδ]
    simp
  obtain ⟨hstep, hrun⟩ := arcPoints_single M modal v1 v2 v0 hD h0 fuel hf
  refine ⟨?_, hrun, ?_⟩
  · rw [hstep, hδ]
    simp
  · intro hne path
    simp only [addArcCurve, if_pos hne, hrun, addVertex, Vec.toVertex, List.append_assoc,
      List.singleton_append]

/-- The radius of the arc to `(2,0)` around `(0,0)`. -/
theorem example_radius_two : arcRadius RealMath ⟨2, 0⟩ ⟨0, 0⟩ = 2 := by
  show Real.sqrt (((2 : ℝ) - 0) ^ 2 + ((0 : ℝ) - 0) ^ 2) = 2
  have h : ((2 : ℝ) - 0) ^ 2 + ((0 : ℝ) - 0) ^ 2 = 2 ^ 2 := by norm_num
  rw [h, Real.sqrt_sq (by norm_num)]

/-- The angle of `(2,0)` seen from `(0,0)`. -/
theorem example_angle_two : arcAngle RealMath ⟨2, 0⟩ ⟨0, 0⟩ = 0 := by
  have h : (⟨(2 : ℝ) - 0, (0 : ℝ) - 0⟩ : ℂ) = ((2 : ℝ) : ℂ) := by
    apply Complex.ext <;> simp
  show Complex.arg ⟨(2 : ℝ) - 0, (0 : ℝ) - 0⟩ = 0
  rw [h, Complex.arg_ofReal_of_nonneg (by norm_num)]

/-- The sweep of the `G2` arc from `(1,0)` to `(2,0)` around `(0,0)` is zero. -/
theorem example_zero_sweep :
    (arcSweep RealMath ⟨"G2"⟩ ⟨1, 0⟩ ⟨2, 0⟩ ⟨0, 0⟩).deltaTheta = 0 := by
  simp [arcSweep, example_startTheta, example_angle_two, resolveSweep]

/-- The radius of the arc to `(2,0)` around `(0,0)` is positive. -/
theorem example_radius_two_pos : 0 < arcRadius RealMath ⟨2, 0⟩ ⟨0, 0⟩ := by
  show 0 < Real.sqrt (((2 : ℝ) - 0) ^ 2 + ((0 : ℝ) - 0) ^ 2)
  apply Real.sqrt_pos.mpr
  norm_num

end CircleLemmas

/-! ## Claims about degenerate arcs -/

section DegenerateArcClaims

/-- C11 (counterexample): for the `G2` arc from `(1,0)` to `(0,0)` around the centre `(0,0)`
(radius 0) the loop body runs once and `addArcCurve` appends two vertices, not one. -/
theorem addArcCurve_zero_radius_counterexample :
    addArcCurve RealMath 1 ⟨"G2"⟩ [] ⟨1, 0⟩ ⟨0, 0⟩ ⟨0, 0⟩
      = some [⟨JSNum.fin 0, JSNum.fin 0⟩, ⟨JSNum.fin 0, JSNum.fin 0⟩] :=
  (realArc_single_is_end ⟨"G2"⟩ ⟨1, 0⟩ ⟨0, 0⟩ ⟨0, 0⟩ (Or.inl rfl)
    ((radius_zero_iff _ _).mpr rfl) 1 (le_refl 1)).2 (Or.inl one_ne_zero) []

/-- C11 (amended): for every `G2` or `G3` arc with start ≠ end whose radius is 0,
`addArcCurve` evaluates the step `deltaTheta * 0.5 / 0`, which is not a finite number, the
loop body runs exactly once and pushes the centre, which is the end point, and the end
point is appended again: two vertices, both `(v2.x, v2.y)`, are appended. -/
theorem addArcCurve_zero_radius (modal : Modal) (v1 v2 v0 : Vec ℝ)
    (hm : modal.motion = "G2" ∨ modal.motion = "G3")
    (hne : v1.x ≠ v2.x ∨ v1.y ≠ v2.y)
    (hr : arcRadius RealMath v2 v0 = 0) :
    (∀ a : ℝ, thetaStep (arcSweep RealMath modal v1 v2 v0).deltaTheta
        (arcRadius RealMath v2 v0) ≠ JSNum.fin a) ∧
    ∀ fuel : Nat, 1 ≤ fuel →
      arcPoints RealMath fuel modal v1 v2 v0 = some [v2.toVertex] ∧
      ∀ path : List (Vertex ℝ), addArcCurve RealMath fuel modal path v1 v2 v0
        = some (path ++ [v2.toVertex, v2.toVertex]) := by
  refine ⟨(realArc_single modal v1 v2 v0 hm (Or.inl hr)).1, ?_⟩
  intro fuel hf
  obtain ⟨h1, h2⟩ := realArc_single_is_end modal v1 v2 v0 hm hr fuel hf
  exact ⟨h1, h2 hne⟩

/-- Witness for C11: the `G2` arc from `(1,0)` to `(0,0)` around `(0,0)`. -/
theorem addArcCurve_zero_radius_witness :
    (((⟨"G2"⟩ : Modal).motion = "G2" ∨ (⟨"G2"⟩ : Modal).motion = "G3") ∧
      ((1 : ℝ) ≠ 0 ∨ (0 : ℝ) ≠ 0) ∧ arcRadius RealMath ⟨0, 0⟩ ⟨0, 0⟩ = 0) ∧
    (∀ a : ℝ, thetaStep (arcSweep RealMath ⟨"G2"⟩ ⟨1, 0⟩ ⟨0, 0⟩ ⟨0, 0⟩).deltaTheta
        (arcRadius RealMath ⟨0, 0⟩ ⟨0, 0⟩) ≠ JSNum.fin a) ∧
    ∀ fuel : Nat, 1 ≤ fuel →
      arcPoints RealMath fuel ⟨"G2"⟩ ⟨1, 0⟩ ⟨0, 0⟩ ⟨0, 0⟩ = some [Vec.toVertex ⟨0, 0⟩] ∧
      ∀ path : List (Vertex ℝ), addArcCurve RealMath fuel ⟨"G2"⟩ path ⟨1, 0⟩ ⟨0, 0⟩ ⟨0, 0⟩
        = some (path ++ [Vec.toVertex ⟨0, 0⟩, Vec.toVertex ⟨0, 0⟩]) :=
  ⟨⟨Or.inl rfl, Or.inl one_ne_zero, (radius_zero_iff _ _).mpr rfl⟩,
   addArcCurve_zero_radius ⟨"G2"⟩ ⟨1, 0⟩ ⟨0, 0⟩ ⟨0, 0⟩ (Or.inl rfl) (Or.inl one_ne_zero)
     ((radius_zero_iff _ _).mpr rfl)⟩

/-- C12 (counterexample): for the `G2` arc from `(1,0)` to `(2,0)` around `(0,0)` (radius 2,
zero sweep) the loop body runs once and `addArcCurve` appends two vertices, not one. -/
theorem addArcCurve_zero_sweep_counterexample :
    addArcCurve RealMath 1 ⟨"G2"⟩ [] ⟨1, 0⟩ ⟨2, 0⟩ ⟨0, 0⟩
      = some [⟨JSNum.fin 2, JSNum.fin 0⟩, ⟨JSNum.fin 2, JSNum.fin 0⟩] := by
  have h := (addArcCurve_single_of_zero_sweep RealMath ⟨"G2"⟩ ⟨1, 0⟩ ⟨2, 0⟩ ⟨0, 0⟩
    example_zero_sweep 1 (le_refl 1)).2.2 (Or.inl (by norm_num)) []
  rw [h, example_radius_two, example_startTheta, arcPoint_real]
  simp [Vec.toVertex]

/-- C12 (amended): for every arc event with start ≠ end and positive radius whose sweep is
zero after direction resolution, for every `Math` library: `addArcCurve` evaluates the step
`0 * 0.5 / 0 = NaN`, the loop body runs exactly once and pushes the point computed at the
start angle, `(v0.x + radius * cos(startTheta), v0.y + radius * sin(startTheta))`, and the
end point is then appended: exactly two vertices are appended, the last of them
`(v2.x, v2.y)`. -/
theorem addArcCurve_zero_sweep {α : Type} [LinearOrderedField α] (M : JSMath α)
    (modal : Modal) (v1 v2 v0 : Vec α)
    (hne : v1.x ≠ v2.x ∨ v1.y ≠ v2.y)
    (_hr : 0 < arcRadius M v2 v0)
    (hδ : (arcSweep M modal v1 v2 v0).deltaTheta = 0) :
    thetaStep (arcSweep M modal v1 v2 v0).deltaTheta (arcRadius M v2 v0) = JSNum.nan ∧
    ∀ fuel : Nat, 1 ≤ fuel →
      arcPoints M fuel modal v1 v2 v0
        = some [arcPoint M v0 (arcRadius M v2 v0) (JSNum.fin (arcAngle M v1 v0))] ∧
      ∀ path : List (Vertex α), addArcCurve M fuel modal path v1 v2 v0
        = some (path ++ [arcPoint M v0 (arcRadius M v2 v0) (JSNum.fin (arcAngle M v1 v0)),
            ⟨JSNum.fin v2.x, JSNum.fin v2.y⟩]) := by
  refine ⟨(addArcCurve_single_of_zero_sweep M modal v1 v2 v0 hδ 1 (le_refl 1)).1, ?_⟩
  intro fuel hf
  obtain ⟨-, h1, h2⟩ := addArcCurve_single_of_zero_sweep M modal v1 v2 v0 hδ fuel hf
  exact ⟨h1, h2 hne⟩

/-- Witness for C12: the `G2` arc from `(1,0)` to `(2,0)` around `(0,0)`. -/
theorem addArcCurve_zero_sweep_witness :
    (((1 : ℝ) ≠ 2 ∨ (0 : ℝ) ≠ 0) ∧ 0 < arcRadius RealMath ⟨2, 0⟩ ⟨0, 0⟩ ∧
      (arcSweep RealMath ⟨"G2"⟩ ⟨1, 0⟩ ⟨2, 0⟩ ⟨0, 0⟩).deltaTheta = 0) ∧
    thetaStep (arcSweep RealMath ⟨"G2"⟩ ⟨1, 0⟩ ⟨2, 0⟩ ⟨0, 0⟩).deltaTheta
        (arcRadius RealMath ⟨2, 0⟩ ⟨0, 0⟩) = JSNum.nan ∧
    ∀ fuel : Nat, 1 ≤ fuel →
      arcPoints RealMath fuel ⟨"G2"⟩ ⟨1, 0⟩ ⟨2, 0⟩ ⟨0, 0⟩
        = some [arcPoint RealMath ⟨0, 0⟩ (arcRadius RealMath ⟨2, 0⟩ ⟨0, 0⟩)
            (JSNum.fin (arcAngle RealMath ⟨1, 0⟩ ⟨0, 0⟩))] ∧
      ∀ path : List (Vertex ℝ), addArcCurve RealMath fuel ⟨"G2"⟩ path ⟨1, 0⟩ ⟨2, 0⟩ ⟨0, 0⟩
        = some (path ++ [arcPoint RealMath ⟨0, 0⟩ (arcRadius RealMath ⟨2, 0⟩ ⟨0, 0⟩)
            (JSNum.fin (arcAngle RealMath ⟨1, 0⟩ ⟨0, 0⟩)), ⟨JSNum.fin 2, JSNum.fin 0⟩]) :=
  ⟨⟨Or.inl (by norm_num), example_radius_two_pos, example_zero_sweep⟩,
   addArcCurve_zero_sweep RealMath ⟨"G2"⟩ ⟨1, 0⟩ ⟨2, 0⟩ ⟨0, 0⟩ (Or.inl (by norm_num))
     example_radius_two_pos example_zero_sweep⟩


end DegenerateArcClaims

/-! ## More about `normalizeCoords` on finite paths -/

section NormalizeMore

variable {α : Type} [LinearOrderedField α]

/-- The whole result of `normalizeCoords` on a finite path. -/
theorem normalizeCoords_finite (cs : List String) (fileName : String)
    (r : Option (JSNum α)) (pts : List (Vec α)) :
    normalizeCoords ⟨cs, pts.map Vec.toVertex, fileName, r⟩
      = ⟨cs,
         pts.map (fun p =>
          ⟨normCoord (runMin Vec.x 1000000000 pts) (runMax Vec.x (-1000000000) pts) p.x,
           normCoord (runMin Vec.y 1000000000 pts) (runMax Vec.y (-1000000000) pts) p.y⟩),
         fileName,
         some ((JSNum.fin 1 / JSNum.fin (runMax Vec.x (-1000000000) pts
                  - (runMax Vec.x (-1000000000) pts + runMin Vec.x 1000000000 pts) / 2))
               / (JSNum.fin 1 / JSNum.fin (runMax Vec.y (-1000000000) pts
                  - (runMax Vec.y (-1000000000) pts + runMin Vec.y 1000000000 pts) / 2)))⟩ := by
  simp [normalizeCoords, computeBounds_finite, normCoord, Vec.toVertex, Function.comp_def]

/-- The scale of a non-degenerate axis is finite and positive. -/
theorem scale_of_lt {lo hi : α} (h : lo < hi) :
    (JSNum.fin 1 / JSNum.fin (hi - (hi + lo) / 2) : JSNum α)
        = JSNum.fin (1 / (hi - (hi + lo) / 2)) ∧
    0 < 1 / (hi - (hi + lo) / 2) ∧
    1 / (hi - (hi + lo) / 2) = 2 / (hi - lo) := by
  have hpos : 0 < hi - (hi + lo) / 2 := by linarith
  refine ⟨JSNum.fin_div_fin_of_ne 1 (ne_of_gt hpos), one_div_pos.mpr hpos, ?_⟩
  have h1 : hi - lo ≠ 0 := ne_of_gt (by linarith)
  have h2 : hi - (hi + lo) / 2 = (hi - lo) / 2 := by ring
  rw [h2]
  field_simp

/-- The stored ratio of two non-degenerate axes. -/
theorem ratio_of_lt {loX hiX loY hiY : α} (hX : loX < hiX) (hY : loY < hiY) :
    ((JSNum.fin 1 / JSNum.fin (hiX - (hiX + loX) / 2))
        / (JSNum.fin 1 / JSNum.fin (hiY - (hiY + loY) / 2)) : JSNum α)
      = JSNum.fin (1 / (hiX - (hiX + loX) / 2) / (1 / (hiY - (hiY + loY) / 2))) ∧
    1 / (hiX - (hiX + loX) / 2) / (1 / (hiY - (hiY + loY) / 2))
      = (hiY - loY) / (hiX - loX) := by
  obtain ⟨e1, -, v1⟩ := scale_of_lt hX
  obtain ⟨e2, p2, v2⟩ := scale_of_lt hY
  refine ⟨?_, ?_⟩
  · rw [e1, e2, JSNum.fin_div_fin_of_ne _ (ne_of_gt p2)]
  · rw [v1, v2]
    have h1 : hiX - loX ≠ 0 := ne_of_gt (by linarith)
    have h2 : hiY - loY ≠ 0 := ne_of_gt (by linarith)
    field_simp
    ring

end NormalizeMore

/-! ## Claims about the extrema, the aspect ratio and the vertex map -/

section BoundsClaims

variable {α : Type} [LinearOrderedField α]

/-- C13 (counterexample): on the single vertex `(2e9, 2e9)` the accumulated `minX` and
`minY` are the seed `1e9`, not the minimum `2e9` of the coordinates. -/
theorem computeBounds_sentinel_counterexample :
    computeBounds ([⟨JSNum.fin 2000000000, JSNum.fin 2000000000⟩] : List (Vertex ℚ))
      = ⟨JSNum.fin 1000000000, JSNum.fin 1000000000,
         JSNum.fin 2000000000, JSNum.fin 2000000000⟩ := by
  simp [computeBounds, initBounds, boundsStep]
  norm_num

/-- C13 (amended): for every finite path that reaches the range of the seeds on each axis
(some x and some y at most `1e9`, some x and some y at least `-1e9`), the values `minX`,
`minY`, `maxX`, `maxY` computed by `normalizeCoords` are the minimum and the maximum of
the x and of the y coordinates over every vertex. -/
theorem computeBounds_extrema (pts : List (Vec α))
    (hxlo : ∃ p ∈ pts, p.x ≤ 1000000000) (hxhi : ∃ p ∈ pts, -1000000000 ≤ p.x)
    (hylo : ∃ p ∈ pts, p.y ≤ 1000000000) (hyhi : ∃ p ∈ pts, -1000000000 ≤ p.y) :
    ∃ minX minY maxX maxY : α,
      computeBounds (pts.map Vec.toVertex)
        = ⟨JSNum.fin minX, JSNum.fin minY, JSNum.fin maxX, JSNum.fin maxY⟩ ∧
      (∀ p ∈ pts, minX ≤ p.x ∧ p.x ≤ maxX ∧ minY ≤ p.y ∧ p.y ≤ maxY) ∧
      (∃ p ∈ pts, p.x = minX) ∧ (∃ p ∈ pts, p.x = maxX) ∧
      (∃ p ∈ pts, p.y = minY) ∧ (∃ p ∈ pts, p.y = maxY) := by
  obtain ⟨bX, aXl, aXh⟩ := axis_extrema Vec.x pts hxlo hxhi
  obtain ⟨bY, aYl, aYh⟩ := axis_extrema Vec.y pts hylo hyhi
  exact ⟨_, _, _, _, computeBounds_finite pts,
    fun p hp => ⟨(bX p hp).1, (bX p hp).2, (bY p hp).1, (bY p hp).2⟩, aXl, aXh, aYl, aYh⟩

/-- Witness for C13: the path `(-5,-5), (5,5)`. -/
theorem computeBounds_extrema_witness :
    ∃ minX minY maxX maxY : ℚ,
      computeBounds (([⟨-5, -5⟩, ⟨5, 5⟩] : List (Vec ℚ)).map Vec.toVertex)
        = ⟨JSNum.fin minX, JSNum.fin minY, JSNum.fin maxX, JSNum.fin maxY⟩ ∧
      (∀ p ∈ ([⟨-5, -5⟩, ⟨5, 5⟩] : List (Vec ℚ)),
        minX ≤ p.x ∧ p.x ≤ maxX ∧ minY ≤ p.y ∧ p.y ≤ maxY) ∧
      (∃ p ∈ ([⟨-5, -5⟩, ⟨5, 5⟩] : List (Vec ℚ)), p.x = minX) ∧
      (∃ p ∈ ([⟨-5, -5⟩, ⟨5, 5⟩] : List (Vec ℚ)), p.x = maxX) ∧
      (∃ p ∈ ([⟨-5, -5⟩, ⟨5, 5⟩] : List (Vec ℚ)), p.y = minY) ∧
      (∃ p ∈ ([⟨-5, -5⟩, ⟨5, 5⟩] : List (Vec ℚ)), p.y = maxY) :=
  computeBounds_extrema [⟨-5, -5⟩, ⟨5, 5⟩]
    ⟨⟨-5, -5⟩, by simp, by norm_num⟩ ⟨⟨5, 5⟩, by simp, by norm_num⟩
    ⟨⟨-5, -5⟩, by simp, by norm_num⟩ ⟨⟨5, 5⟩, by simp, by norm_num⟩

/-- C14 (counterexample): the path `(2e9, 0), (3e9, 1e9)` has a square bounding box of side
`1e9`, yet the stored `originalAspectRatio` is `1/2`: the seed `1e9` stays the
accumulated `minX`. -/
theorem normalizeCoords_aspect_counterexample :
    ((3000000000 : ℚ) - 2000000000 = 1000000000 - 0) ∧
    (normalizeCoords (⟨[], [⟨JSNum.fin 2000000000, JSNum.fin 0⟩,
        ⟨JSNum.fin 3000000000, JSNum.fin 1000000000⟩], "b.gcode", none⟩ : Props ℚ)
      ).originalAspectRatio = some (JSNum.fin (1 / 2)) := by
  constructor
  · norm_num
  · simp [normalizeCoords, computeBounds, initBounds, boundsStep]
    norm_num

/-- With exact arithmetic: for every finite path with non-degenerate bounding box, with
`minX, minY, maxX, maxY` the extrema computed by `normalizeCoords`, the stored ratio is
`scaleX/scaleY = (maxY - minY)/(maxX - minX)`, every output vertex `(x', y')` of `(x, y)`
has `x' = scaleX * (x - offsetX)` and `ratio * y' = scaleX * (y - offsetY)`, the computed
extrema are those of the bounding box when the path reaches the range of the seeds, and
equal extents give the ratio 1.  Used below on inputs on which the binary64 operations
round nothing away. -/
theorem aspect_of_exact_arithmetic (cs : List String) (fileName : String) (r : Option (JSNum α))
    (pts : List (Vec α))
    (hw : ∃ p ∈ pts, ∃ q ∈ pts, p.x ≠ q.x) (hh : ∃ p ∈ pts, ∃ q ∈ pts, p.y ≠ q.y) :
    ∃ (minX minY maxX maxY : α) (f : Vec α → Vec α),
      computeBounds (pts.map Vec.toVertex)
        = ⟨JSNum.fin minX, JSNum.fin minY, JSNum.fin maxX, JSNum.fin maxY⟩ ∧
      (normalizeCoords ⟨cs, pts.map Vec.toVertex, fileName, r⟩).originalAspectRatio
        = some (JSNum.fin (1 / (maxX - (maxX + minX) / 2) / (1 / (maxY - (maxY + minY) / 2)))) ∧
      1 / (maxX - (maxX + minX) / 2) / (1 / (maxY - (maxY + minY) / 2))
        = (maxY - minY) / (maxX - minX) ∧
      (normalizeCoords ⟨cs, pts.map Vec.toVertex, fileName, r⟩).vertices
        = pts.map (fun p => (f p).toVertex) ∧
      (∀ p ∈ pts,
        (f p).x = 1 / (maxX - (maxX + minX) / 2) * (p.x - (maxX + minX) / 2) ∧
        (maxY - minY) / (maxX - minX) * (f p).y
          = 1 / (maxX - (maxX + minX) / 2) * (p.y - (maxY + minY) / 2)) ∧
      (((∃ p ∈ pts, p.x ≤ 1000000000) ∧ (∃ p ∈ pts, -1000000000 ≤ p.x) ∧
          (∃ p ∈ pts, p.y ≤ 1000000000) ∧ (∃ p ∈ pts, -1000000000 ≤ p.y)) →
        (∀ p ∈ pts, minX ≤ p.x ∧ p.x ≤ maxX ∧ minY ≤ p.y ∧ p.y ≤ maxY) ∧
        (∃ p ∈ pts, p.x = minX) ∧ (∃ p ∈ pts, p.x = maxX) ∧
        (∃ p ∈ pts, p.y = minY) ∧ (∃ p ∈ pts, p.y = maxY)) ∧
      (maxX - minX = maxY - minY →
        (normalizeCoords ⟨cs, pts.map Vec.toVertex, fileName, r⟩).originalAspectRatio
          = some (JSNum.fin 1)) := by
  have hX := axis_lt Vec.x pts hw
  have hY := axis_lt Vec.y pts hh
  obtain ⟨er, vr⟩ := ratio_of_lt hX hY
  obtain ⟨-, pY, -⟩ := scale_of_lt hY
  have hratio : (normalizeCoords ⟨cs, pts.map Vec.toVertex, fileName, r⟩).originalAspectRatio
      = some (JSNum.fin (1 / (runMax Vec.x (-1000000000) pts
            - (runMax Vec.x (-1000000000) pts + runMin Vec.x 1000000000 pts) / 2)
          / (1 / (runMax Vec.y (-1000000000) pts
            - (runMax Vec.y (-1000000000) pts + runMin Vec.y 1000000000 pts) / 2)))) := by
    rw [normalizeCoords_finite, er]
  refine ⟨_, _, _, _, fun p =>
    ⟨1 / (runMax Vec.x (-1000000000) pts
          - (runMax Vec.x (-1000000000) pts + runMin Vec.x 1000000000 pts) / 2)
        * (p.x - (runMax Vec.x (-1000000000) pts + runMin Vec.x 1000000000 pts) / 2),
     1 / (runMax Vec.y (-1000000000) pts
          - (runMax Vec.y (-1000000000) pts + runMin Vec.y 1000000000 pts) / 2)
        * (p.y - (runMax Vec.y (-1000000000) pts + runMin Vec.y 1000000000 pts) / 2)⟩,
    computeBounds_finite pts, hratio, vr, ?_, ?_, ?_, ?_⟩
  · rw [normalizeCoords_vertices_finite]
    apply List.map_congr_left
    intro p _
    simp [normCoord_of_lt hX, normCoord_of_lt hY, Vec.toVertex]
  · intro p _
    refine ⟨rfl, ?_⟩
    rw [← vr]
    have hgen : ∀ a b t : α, b ≠ 0 → a / b * (b * t) = a * t := by
      intro a b t hb
      field_simp
      ring
    exact hgen _ _ _ (ne_of_gt pY)
  · rintro ⟨hxlo, hxhi, hylo, hyhi⟩
    obtain ⟨bX, aXl, aXh⟩ := axis_extrema Vec.x pts hxlo hxhi
    obtain ⟨bY, aYl, aYh⟩ := axis_extrema Vec.y pts hylo hyhi
    exact ⟨fun p hp => ⟨(bX p hp).1, (bX p hp).2, (bY p hp).1, (bY p hp).2⟩,
      aXl, aXh, aYl, aYh⟩
  · intro hsq
    rw [hratio, vr, hsq, div_self (ne_of_gt (by linarith))]

/-- C14 (amended): for every finite path with integer coordinates within the seeds
`-1e9 .. 1e9` and a bounding box of non-zero width and height, with `minX, minY, maxX, maxY`
the extrema of the path (they are the ones `normalizeCoords` computes): when the bounding
box is square, `originalAspectRatio = 1`; and when its width and height are powers of two
(every operation of `normalizeCoords` is then exact in binary64 arithmetic), the stored
`originalAspectRatio` is `scaleX/scaleY = (maxY - minY)/(maxX - minX)` and every output
vertex `(x', y')` of the vertex `(x, y)` has `x' = scaleX * (x - offsetX)` and
`originalAspectRatio * y' = scaleX * (y - offsetY)`.  (On other paths these equations hold
only up to rounding, and beyond the seeds the square box does not give 1.) -/
theorem normalizeCoords_aspect (cs : List String) (fileName : String) (r : Option (JSNum α))
    (pts : List (Vec α))
    (hint : ∀ p ∈ pts, (∃ n : ℤ, p.x = n) ∧ (∃ n : ℤ, p.y = n) ∧
      -1000000000 ≤ p.x ∧ p.x ≤ 1000000000 ∧ -1000000000 ≤ p.y ∧ p.y ≤ 1000000000)
    (hw : ∃ p ∈ pts, ∃ q ∈ pts, p.x ≠ q.x) (hh : ∃ p ∈ pts, ∃ q ∈ pts, p.y ≠ q.y) :
    ∃ (minX minY maxX maxY : α),
      computeBounds (pts.map Vec.toVertex)
        = ⟨JSNum.fin minX, JSNum.fin minY, JSNum.fin maxX, JSNum.fin maxY⟩ ∧
      ((∀ p ∈ pts, minX ≤ p.x ∧ p.x ≤ maxX ∧ minY ≤ p.y ∧ p.y ≤ maxY) ∧
        (∃ p ∈ pts, p.x = minX) ∧ (∃ p ∈ pts, p.x = maxX) ∧
        (∃ p ∈ pts, p.y = minY) ∧ (∃ p ∈ pts, p.y = maxY)) ∧
      (maxX - minX = maxY - minY →
        (normalizeCoords ⟨cs, pts.map Vec.toVertex, fileName, r⟩).originalAspectRatio
          = some (JSNum.fin 1)) ∧
      ((∃ j : ℕ, maxX - minX = 2 ^ j) → (∃ k : ℕ, maxY - minY = 2 ^ k) →
        (normalizeCoords ⟨cs, pts.map Vec.toVertex, fileName, r⟩).originalAspectRatio
          = some (JSNum.fin
              (1 / (maxX - (maxX + minX) / 2) / (1 / (maxY - (maxY + minY) / 2)))) ∧
        1 / (maxX - (maxX + minX) / 2) / (1 / (maxY - (maxY + minY) / 2))
          = (maxY - minY) / (maxX - minX) ∧
        ∃ f : Vec α → Vec α,
          (normalizeCoords ⟨cs, pts.map Vec.toVertex, fileName, r⟩).vertices
            = pts.map (fun p => (f p).toVertex) ∧
          ∀ p ∈ pts,
            (f p).x = 1 / (maxX - (maxX + minX) / 2) * (p.x - (maxX + minX) / 2) ∧
            (maxY - minY) / (maxX - minX) * (f p).y
              = 1 / (maxX - (maxX + minX) / 2) * (p.y - (maxY + minY) / 2)) := by
  obtain ⟨minX, minY, maxX, maxY, f, hb, hr, hv, hvert, hid, hseed, hsq⟩ :=
    aspect_of_exact_arithmetic cs fileName r pts hw hh
  obtain ⟨p, hp, -⟩ := hw
  refine ⟨minX, minY, maxX, maxY, hb, ?_, hsq, ?_⟩
  · exact hseed ⟨⟨p, hp, (hint p hp).2.2.2.1⟩, ⟨p, hp, (hint p hp).2.2.1⟩,
      ⟨p, hp, (hint p hp).2.2.2.2.2⟩, ⟨p, hp, (hint p hp).2.2.2.2.1⟩⟩
  · intro _ _
    exact ⟨hr, hv, f, hvert, hid⟩

/-- Witness for C14: the path `(-5,-5), (5,5)`, whose bounding box is a square, has the
stored ratio 1; the path `(-4,-2), (4,2)`, whose bounding box has width `2^3` and height
`2^2`, has integer coordinates within the seeds and a box of non-zero width and height. -/
theorem normalizeCoords_aspect_witness :
    (normalizeCoords ⟨[], ([⟨-5, -5⟩, ⟨5, 5⟩] : List (Vec ℚ)).map Vec.toVertex,
        "square.gcode", none⟩).originalAspectRatio = some (JSNum.fin 1) ∧
    ((normalizeCoords ⟨[], ([⟨-4, -2⟩, ⟨4, 2⟩] : List (Vec ℚ)).map Vec.toVertex,
        "box.gcode", none⟩).originalAspectRatio = some (JSNum.fin (1 / 2)) ∧
      (normalizeCoords ⟨[], ([⟨-4, -2⟩, ⟨4, 2⟩] : List (Vec ℚ)).map Vec.toVertex,
        "box.gcode", none⟩).vertices
        = [⟨JSNum.fin (-1), JSNum.fin (-1)⟩, ⟨JSNum.fin 1, JSNum.fin 1⟩]) ∧
    ∃ (minX minY maxX maxY : ℚ),
      computeBounds (([⟨-4, -2⟩, ⟨4, 2⟩] : List (Vec ℚ)).map Vec.toVertex)
        = ⟨JSNum.fin minX, JSNum.fin minY, JSNum.fin maxX, JSNum.fin maxY⟩ ∧
      (∃ j : ℕ, maxX - minX = 2 ^ j) ∧ (∃ k : ℕ, maxY - minY = 2 ^ k) ∧
      (normalizeCoords ⟨[], ([⟨-4, -2⟩, ⟨4, 2⟩] : List (Vec ℚ)).map Vec.toVertex,
          "box.gcode", none⟩).originalAspectRatio
        = some (JSNum.fin
            (1 / (maxX - (maxX + minX) / 2) / (1 / (maxY - (maxY + minY) / 2)))) ∧
      1 / (maxX - (maxX + minX) / 2) / (1 / (maxY - (maxY + minY) / 2))
        = (maxY - minY) / (maxX - minX) ∧
      ∃ f : Vec ℚ → Vec ℚ,
        (normalizeCoords ⟨[], ([⟨-4, -2⟩, ⟨4, 2⟩] : List (Vec ℚ)).map Vec.toVertex,
            "box.gcode", none⟩).vertices
          = ([⟨-4, -2⟩, ⟨4, 2⟩] : List (Vec ℚ)).map (fun p => (f p).toVertex) ∧
        ∀ p ∈ ([⟨-4, -2⟩, ⟨4, 2⟩] : List (Vec ℚ)),
          (f p).x = 1 / (maxX - (maxX + minX) / 2) * (p.x - (maxX + minX) / 2) ∧
          (maxY - minY) / (maxX - minX) * (f p).y
            = 1 / (maxX - (maxX + minX) / 2) * (p.y - (maxY + minY) / 2) := by
  have hint5 : ∀ p ∈ ([⟨-5, -5⟩, ⟨5, 5⟩] : List (Vec ℚ)),
      (∃ n : ℤ, p.x = n) ∧ (∃ n : ℤ, p.y = n) ∧
      -1000000000 ≤ p.x ∧ p.x ≤ 1000000000 ∧ -1000000000 ≤ p.y ∧ p.y ≤ 1000000000 := by
    intro p hp
    simp only [List.mem_cons, List.mem_singleton, List.not_mem_nil, or_false] at hp
    rcases hp with rfl | rfl
    · exact ⟨⟨-5, by norm_num⟩, ⟨-5, by norm_num⟩, by norm_num, by norm_num, by norm_num,
        by norm_num⟩
    · exact ⟨⟨5, by norm_num⟩, ⟨5, by norm_num⟩, by norm_num, by norm_num, by norm_num,
        by norm_num⟩
  have hint4 : ∀ p ∈ ([⟨-4, -2⟩, ⟨4, 2⟩] : List (Vec ℚ)),
      (∃ n : ℤ, p.x = n) ∧ (∃ n : ℤ, p.y = n) ∧
      -1000000000 ≤ p.x ∧ p.x ≤ 1000000000 ∧ -1000000000 ≤ p.y ∧ p.y ≤ 1000000000 := by
    intro p hp
    simp only [List.mem_cons, List.mem_singleton, List.not_mem_nil, or_false] at hp
    rcases hp with rfl | rfl
    · exact ⟨⟨-4, by norm_num⟩, ⟨-2, by norm_num⟩, by norm_num, by norm_num, by norm_num,
        by norm_num⟩
    · exact ⟨⟨4, by norm_num⟩, ⟨2, by norm_num⟩, by norm_num, by norm_num, by norm_num,
        by norm_num⟩
  have hc5 : computeBounds (([⟨-5, -5⟩, ⟨5, 5⟩] : List (Vec ℚ)).map Vec.toVertex)
      = ⟨JSNum.fin (-5), JSNum.fin (-5), JSNum.fin 5, JSNum.fin 5⟩ := by
    simp [computeBounds, initBounds, boundsStep, Vec.toVertex]
    norm_num
  have hc4 : computeBounds (([⟨-4, -2⟩, ⟨4, 2⟩] : List (Vec ℚ)).map Vec.toVertex)
      = ⟨JSNum.fin (-4), JSNum.fin (-2), JSNum.fin 4, JSNum.fin 2⟩ := by
    simp [computeBounds, initBounds, boundsStep, Vec.toVertex]
    norm_num
  refine ⟨?_, ?_, ?_⟩
  · obtain ⟨minX, minY, maxX, maxY, hb, -, hsq, -⟩ :=
      normalizeCoords_aspect [] "square.gcode" none ([⟨-5, -5⟩, ⟨5, 5⟩] : List (Vec ℚ)) hint5
        ⟨⟨-5, -5⟩, by simp, ⟨5, 5⟩, by simp, by norm_num⟩
        ⟨⟨-5, -5⟩, by simp, ⟨5, 5⟩, by simp, by norm_num⟩
    apply hsq
    rw [hc5] at hb
    simp only [Bounds.mk.injEq, JSNum.fin.injEq] at hb
    obtain ⟨h1, h2, h3, h4⟩ := hb
    rw [← h1, ← h2, ← h3, ← h4]
  · constructor
    · simp [normalizeCoords, computeBounds, initBounds, boundsStep, Vec.toVertex]
      norm_num
    · simp [normalizeCoords, computeBounds, initBounds, boundsStep, Vec.toVertex]
      norm_num
  · obtain ⟨minX, minY, maxX, maxY, hb, -, -, hpow⟩ :=
      normalizeCoords_aspect [] "box.gcode" none ([⟨-4, -2⟩, ⟨4, 2⟩] : List (Vec ℚ)) hint4
        ⟨⟨-4, -2⟩, by simp, ⟨4, 2⟩, by simp, by norm_num⟩
        ⟨⟨-4, -2⟩, by simp, ⟨4, 2⟩, by simp, by norm_num⟩
    have hb2 := hb
    rw [hc4] at hb2
    simp only [Bounds.mk.injEq, JSNum.fin.injEq] at hb2
    obtain ⟨h1, h2, h3, h4⟩ := hb2
    have hj : ∃ j : ℕ, maxX - minX = 2 ^ j := ⟨3, by rw [← h1, ← h3]; norm_num⟩
    have hk : ∃ k : ℕ, maxY - minY = 2 ^ k := ⟨2, by rw [← h2, ← h4]; norm_num⟩
    exact ⟨minX, minY, maxX, maxY, hb, hj, hk, hpow hj hk⟩

/-- C15: `normalizeCoords` neither reorders, drops nor duplicates vertices: for every vertex
list the output has the length of the input, and its `i`-th vertex is
`(scaleX * (x_i - offsetX), scaleY * (y_i - offsetY))` computed from the `i`-th input
vertex, with `offsetX = (maxX + minX)/2`, `offsetY = (maxY + minY)/2`,
`scaleX = 1/(maxX - offsetX)`, `scaleY = 1/(maxY - offsetY)` (JavaScript arithmetic). -/
theorem normalizeCoords_pointwise (props : Props α) :
    (normalizeCoords props).vertices.length = props.vertices.length ∧
    ∀ i : Nat, (normalizeCoords props).vertices[i]?
      = (props.vertices[i]?).map fun vertex =>
          (⟨JSNum.fin 1 / ((computeBounds props.vertices).maxX
                - ((computeBounds props.vertices).maxX + (computeBounds props.vertices).minX)
                    / JSNum.fin 2)
              * (vertex.x - ((computeBounds props.vertices).maxX
                  + (computeBounds props.vertices).minX) / JSNum.fin 2),
            JSNum.fin 1 / ((computeBounds props.vertices).maxY
                - ((computeBounds props.vertices).maxY + (computeBounds props.vertices).minY)
                    / JSNum.fin 2)
              * (vertex.y - ((computeBounds props.vertices).maxY
                  + (computeBounds props.vertices).minY) / JSNum.fin 2)⟩ : Vertex α) := by
  constructor
  · simp [normalizeCoords]
  · intro i
    simp [normalizeCoords]

end BoundsClaims

/-! ## Straight moves in sequence -/

section LineClaims

variable {α : Type} [LinearOrderedField α]

/-- The guard of `addLine` is the inequality of the two points. -/
theorem differ_iff_ne (v1 v2 : Vec α) : (v1.x ≠ v2.x ∨ v1.y ≠ v2.y) ↔ v1 ≠ v2 := by
  constructor
  · rintro (h | h) rfl <;> exact h rfl
  · intro h
    by_contra hc
    push_neg at hc
    apply h
    cases v1
    cases v2
    simp only [Vec.mk.injEq]
    exact hc

/-- The reader appends the end points of the moves that move, in order. -/
theorem addLines_eq (events : List (LineEvent α)) (path : List (Vertex α)) :
    addLines events path = path ++ keptEnds events := by
  induction events generalizing path with
  | nil => simp [addLines, keptEnds]
  | cons e es ih =>
    have hstep : addLines (e :: es) path = addLines es (addLine e.modal path e.v1 e.v2) := rfl
    rw [hstep, ih]
    by_cases h : e.v1 = e.v2
    · have hn : ¬ (e.v1.x ≠ e.v2.x ∨ e.v1.y ≠ e.v2.y) := by
        rw [differ_iff_ne]
        exact not_not.mpr h
      simp [addLine, hn, keptEnds, h]
    · have hy : e.v1.x ≠ e.v2.x ∨ e.v1.y ≠ e.v2.y := (differ_iff_ne _ _).mpr h
      simp [addLine, hy, addVertex, keptEnds, h, Vec.toVertex]

theorem toVertex_injective {β : Type} (p q : Vec β) (h : p.toVertex = q.toVertex) :
    p = q := by
  cases p
  cases q
  simp only [Vec.toVertex, Vertex.mk.injEq, JSNum.fin.injEq] at h
  simp only [Vec.mk.injEq]
  exact h

/-- For chained moves starting at `p`, the kept end points start away from `p` and no two
consecutive ones are equal. -/
theorem keptEnds_chain (events : List (LineEvent α)) (p : Vec α)
    (h0 : ∀ e ∈ events.head?, e.v1 = p)
    (hc : List.Chain' (fun e f : LineEvent α => f.v1 = e.v2) events) :
    (∀ w ∈ (keptEnds events).head?, p.toVertex ≠ w) ∧
    List.Chain' (fun a b : Vertex α => a ≠ b) (keptEnds events) := by
  induction events generalizing p with
  | nil => simp [keptEnds]
  | cons e es ih =>
    have hp : e.v1 = p := h0 e (by simp)
    obtain ⟨hnext, hrest⟩ := List.chain'_cons'.mp hc
    obtain ⟨ih1, ih2⟩ := ih e.v2 hnext hrest
    by_cases h : e.v1 = e.v2
    · have hk : keptEnds (e :: es) = keptEnds es := by
        simp [keptEnds, h]
      rw [hk, ← hp, h]
      exact ⟨ih1, ih2⟩
    · have hk : keptEnds (e :: es) = e.v2.toVertex :: keptEnds es := by
        simp [keptEnds, h]
      rw [hk]
      refine ⟨?_, List.chain'_cons'.mpr ⟨ih1, ih2⟩⟩
      intro w hw
      simp only [List.head?_cons, Option.mem_def, Option.some.injEq] at hw
      rw [← hw, ← hp]
      intro heq
      exact h (toVertex_injective _ _ heq)

/-- C16: for every finite sequence of chained line events (each start equals the previous
end), the path accumulated by `addLine` from the empty path is the sequence of the end
points of the events with the zero-length moves removed, in event order, and no two
consecutive vertices of it are coordinate-identical. -/
theorem addLines_no_consecutive_duplicates (events : List (LineEvent α))
    (hc : List.Chain' (fun e f : LineEvent α => f.v1 = e.v2) events) :
    addLines events []
      = (events.filter fun e => decide (e.v1 ≠ e.v2)).map (fun e => e.v2.toVertex) ∧
    List.Chain' (fun a b : Vertex α => a ≠ b) (addLines events []) := by
  rw [addLines_eq, List.nil_append]
  refine ⟨rfl, ?_⟩
  cases events with
  | nil => simp [keptEnds]
  | cons e es => exact (keptEnds_chain (e :: es) e.v1 (by simp) hc).2

/-- Witness for C16: the moves `(0,0) → (1,0)`, `(1,0) → (1,0)`, `(1,0) → (0,0)`. -/
theorem addLines_no_consecutive_duplicates_witness :
    List.Chain' (fun e f : LineEvent ℚ => f.v1 = e.v2)
      [⟨⟨"G1"⟩, ⟨0, 0⟩, ⟨1, 0⟩⟩, ⟨⟨"G1"⟩, ⟨1, 0⟩, ⟨1, 0⟩⟩, ⟨⟨"G1"⟩, ⟨1, 0⟩, ⟨0, 0⟩⟩] ∧
    addLines ([⟨⟨"G1"⟩, ⟨0, 0⟩, ⟨1, 0⟩⟩, ⟨⟨"G1"⟩, ⟨1, 0⟩, ⟨1, 0⟩⟩, ⟨⟨"G1"⟩, ⟨1, 0⟩, ⟨0, 0⟩⟩]
        : List (LineEvent ℚ)) []
      = List.map (fun e => e.v2.toVertex)
          (List.filter (fun e => decide (e.v1 ≠ e.v2))
            ([⟨⟨"G1"⟩, ⟨0, 0⟩, ⟨1, 0⟩⟩, ⟨⟨"G1"⟩, ⟨1, 0⟩, ⟨1, 0⟩⟩, ⟨⟨"G1"⟩, ⟨1, 0⟩, ⟨0, 0⟩⟩]
              : List (LineEvent ℚ))) ∧
    List.Chain' (fun a b : Vertex ℚ => a ≠ b)
      (addLines ([⟨⟨"G1"⟩, ⟨0, 0⟩, ⟨1, 0⟩⟩, ⟨⟨"G1"⟩, ⟨1, 0⟩, ⟨1, 0⟩⟩,
        ⟨⟨"G1"⟩, ⟨1, 0⟩, ⟨0, 0⟩⟩] : List (LineEvent ℚ)) []) :=
  ⟨by simp [List.Chain'], addLines_no_consecutive_duplicates _ (by simp [List.Chain'])⟩

end LineClaims

/-! ## The initial comments -/

section CommentClaims

/-- The test `indexOf(c) === 0` holds exactly when the line starts with `c`. -/
theorem indexOf_eq_zero_iff (line : String) (c : Char) :
    indexOf line c = 0 ↔ line.toList.head? = some c := by
  unfold indexOf
  cases hl : line.toList with
  | nil => simp
  | cons x xs =>
    by_cases hx : x = c
    · subst hx
      simp [List.indexOf_cons]
    · have hne : ¬ (x == c) = true := by simpa using hx
      by_cases hmem : c ∈ x :: xs
      · rw [if_pos hmem, List.indexOf_cons]
        simp only [hne, cond_false, List.head?_cons, Option.some.injEq, hx, iff_false]
        intro h
        have h2 : (List.indexOf c xs + 1 : Nat) = 0 := by exact_mod_cast h
        exact Nat.succ_ne_zero _ h2
      · rw [if_neg hmem]
        simp [hx]

/-- On a trimmed line `isComment` tests the first character. -/
theorem isComment_trim (l : String) : isComment (trim l) = startsComment l := by
  unfold isComment startsComment
  simp only [indexOf_eq_zero_iff]

theorem length_eq_zero_iff_blank (l : String) :
    (trim l).length = 0 ↔ isBlankLine l = true := by
  unfold isBlankLine
  rw [List.isEmpty_iff]
  exact List.length_eq_zero

/-- The loop of `import` collects the initial comments. -/
theorem readComments_eq (lines : List String) :
    readComments lines = initialComments lines := by
  induction lines with
  | nil => rfl
  | cons l rest ih =>
    unfold initialComments at ih ⊢
    by_cases hb : isBlankLine l = true
    · have h0 : (trim l).length = 0 := (length_eq_zero_iff_blank l).mpr hb
      simp [readComments, h0, ih, endsComments, hb]
    · have h0 : ¬ (trim l).length = 0 := fun h => hb ((length_eq_zero_iff_blank l).mp h)
      have hb2 : isBlankLine l = false := by simpa using hb
      by_cases hcm : startsComment l = true
      · simp [readComments, h0, isComment_trim, hcm, ih, endsComments, hb2]
      · have hcm2 : startsComment l = false := by simpa using hcm
        simp [readComments, h0, isComment_trim, hcm2, endsComments, hb2]

/-- Lines before the first line that ends the comments are all taken. -/
theorem takeWhile_before_ending (pre post : List String) (l : String)
    (hpre : ∀ x ∈ pre, endsComments x = false) (hl : endsComments l = true) :
    (pre ++ l :: post).takeWhile (fun x => !endsComments x) = pre := by
  induction pre with
  | nil => simp [hl]
  | cons x xs ih =>
    have hx : endsComments x = false := hpre x (by simp)
    have := ih (fun y hy => hpre y (List.mem_cons_of_mem _ hy))
    simp [hx, this]

/-- C17: `props.comments` is exactly, in order and untrimmed, the lines of the text (split
on the line feed) before the first line that after trimming is non-empty and starts with
neither `;` nor `(`, the blank lines skipped; every collected comment is a line of the
text that starts with `;` or `(` once trimmed; and when `l` is the first such ending line,
only the non-blank lines before `l` are collected. -/
theorem import_comments (α : Type) (fileName text : String) :
    (importProps α fileName text).comments = initialComments (text.splitOn "\n") ∧
    (∀ c ∈ (importProps α fileName text).comments,
      c ∈ text.splitOn "\n" ∧ startsComment c = true) ∧
    (∀ (pre post : List String) (l : String),
      text.splitOn "\n" = pre ++ l :: post →
      (∀ x ∈ pre, endsComments x = false) → endsComments l = true →
      (importProps α fileName text).comments = pre.filter fun x => !isBlankLine x) := by
  have hc : (importProps α fileName text).comments = initialComments (text.splitOn "\n") :=
    readComments_eq _
  refine ⟨hc, ?_, ?_⟩
  · intro c hmem
    rw [hc] at hmem
    unfold initialComments at hmem
    obtain ⟨h1, h2⟩ := List.mem_filter.mp hmem
    have h3 : c ∈ text.splitOn "\n" := (List.takeWhile_sublist _).subset h1
    refine ⟨h3, ?_⟩
    have h4 := List.mem_takeWhile_imp h1
    simp only [endsComments, Bool.not_and, Bool.not_not, Bool.or_eq_true,
      Bool.not_eq_true'] at h4 h2
    rcases h4 with h4 | h4
    · rw [h4] at h2
      exact absurd h2 (by simp)
    · exact h4
  · intro pre post l hsplit hpre hl
    rw [hc, hsplit]
    unfold initialComments
    rw [takeWhile_before_ending pre post l hpre hl]

end CommentClaims

/-! ## The quarter arc from `(0,1)` to `(1,0)` with the library's values -/

section QuarterArc

/-- The stepping loop of the arc `G2` from `(0,1)` to `(1,0)` around `(0,0)`, with the
values of the binary64 `Math` library: four points, none of them the start `(0,1)`. -/
theorem quarterArc_run :
    arcPoints QuarterArcMath 4 ⟨"G2"⟩ ⟨0, 1⟩ ⟨1, 0⟩ ⟨0, 0⟩
      = some [⟨JSNum.fin (4967757600021511 / 81129638414606681695789005144064), JSNum.fin 1⟩,
          ⟨JSNum.fin (8636562708039153 / 18014398509481984),
            JSNum.fin (7904560997432655 / 9007199254740992)⟩,
          ⟨JSNum.fin (3789648413623927 / 4503599627370496),
            JSNum.fin (4866610526750347 / 9007199254740992)⟩,
          ⟨JSNum.fin (8984636099947915 / 9007199254740992),
            JSNum.fin (5097152561150371 / 72057594037927936)⟩] := by
  have habs : |(884279719003555 / 562949953421312 : ℚ)| = 884279719003555 / 562949953421312 :=
    abs_of_pos (by norm_num)
  simp [arcPoints, arcSweep, arcAngle, arcRadius, resolveSweep, thetaStep, arcResolution,
    arcLoop, arcPoint, JSNum.liftFinite, QuarterArcMath, habs]
  norm_num [arcLoop, habs]

/-- The start angle of the quarter arc is the library's `atan2(1, 0)`, within `[-π, π]`. -/
theorem quarterArc_start :
    -QuarterArcMath.pi ≤ arcAngle QuarterArcMath ⟨0, 1⟩ ⟨0, 0⟩ ∧
    arcAngle QuarterArcMath ⟨0, 1⟩ ⟨0, 0⟩ ≤ QuarterArcMath.pi := by
  simp [arcAngle, QuarterArcMath]
  norm_num

/-- The end angle of the quarter arc is the library's `atan2(0, 1) = 0`, within `[-π, π]`. -/
theorem quarterArc_end :
    -QuarterArcMath.pi ≤ arcAngle QuarterArcMath ⟨1, 0⟩ ⟨0, 0⟩ ∧
    arcAngle QuarterArcMath ⟨1, 0⟩ ⟨0, 0⟩ ≤ QuarterArcMath.pi := by
  simp [arcAngle, QuarterArcMath]
  norm_num

/-- On the quarter arc start and end are at the same distance 1 from the centre, and the
sweep is not zero. -/
theorem quarterArc_hypotheses :
    arcRadius QuarterArcMath ⟨0, 1⟩ ⟨0, 0⟩ = 1 ∧ arcRadius QuarterArcMath ⟨1, 0⟩ ⟨0, 0⟩ = 1 ∧
    (arcSweep QuarterArcMath ⟨"G2"⟩ ⟨0, 1⟩ ⟨1, 0⟩ ⟨0, 0⟩).deltaTheta ≠ 0 := by
  simp [arcRadius, arcSweep, arcAngle, resolveSweep, QuarterArcMath]
  norm_num

end QuarterArc

/-! ## The points pushed by the stepping loop -/

section LoopPoints

variable {α : Type} [LinearOrderedField α]

/-- Every vertex pushed by the loop is the expression of the loop body at an angle that
passed the loop condition. -/
theorem arcLoop_mem (M : JSMath α) (v0 : Vec α) (r d e : α) (step : JSNum α) :
    ∀ (fuel : Nat) (theta : JSNum α) (pts : List (Vertex α)),
      arcLoop M v0 r d e step fuel theta = some pts →
      ∀ p ∈ pts, ∃ θ : JSNum α, loopCond d e θ = true ∧ p = arcPoint M v0 r θ := by
  intro fuel
  induction fuel with
  | zero =>
    intro theta pts h p hp
    by_cases hc : loopCond d e theta = true
    · simp [arcLoop, hc] at h
    · simp [arcLoop, hc] at h
      subst h
      simp at hp
  | succ n ih =>
    intro theta pts h p hp
    by_cases hc : loopCond d e theta = true
    · simp only [arcLoop, hc, if_true] at h
      obtain ⟨rest, hrest, rfl⟩ := Option.map_eq_some'.mp h
      rcases List.mem_cons.mp hp with rfl | hp
      · exact ⟨theta, hc, rfl⟩
      · exact ih _ rest hrest p hp
    · simp [arcLoop, hc] at h
      subst h
      simp at hp

/-- For `G2` and `G3`, with both angles in `[-π, π]`, the loop condition holds at the start
angle: the end angle was moved to the commanded side of it. -/
theorem loopCond_start (M : JSMath α) (modal : Modal) (v1 v2 v0 : Vec α)
    (hm : modal.motion = "G2" ∨ modal.motion = "G3")
    (hs : -M.pi ≤ arcAngle M v1 v0 ∧ arcAngle M v1 v0 ≤ M.pi)
    (he : -M.pi ≤ arcAngle M v2 v0 ∧ arcAngle M v2 v0 ≤ M.pi) :
    loopCond (arcSweep M modal v1 v2 v0).direction (arcSweep M modal v1 v2 v0).endTheta
      (JSNum.fin (arcAngle M v1 v0)) = true := by
  obtain ⟨hs1, hs2⟩ := hs
  obtain ⟨he1, he2⟩ := he
  rw [loopCond_fin, decide_eq_true_eq]
  simp only [arcSweep, resolveSweep]
  rcases hm with hm | hm
  · rw [if_pos hm]
    split_ifs with h
    · dsimp only
      linarith
    · dsimp only
      linarith
  · have hm2 : modal.motion ≠ "G2" := by
      rw [hm]
      decide
    rw [if_neg hm2, if_pos hm]
    split_ifs with h
    · dsimp only
      linarith
    · dsimp only
      linarith

/-- When the loop condition holds at the start angle, the first run of the body pushes the
point computed at the start angle. -/
theorem arcPoints_first (M : JSMath α) (modal : Modal) (v1 v2 v0 : Vec α)
    (hc : loopCond (arcSweep M modal v1 v2 v0).direction (arcSweep M modal v1 v2 v0).endTheta
      (JSNum.fin (arcAngle M v1 v0)) = true) (fuel : Nat) :
    arcPoints M (fuel + 1) modal v1 v2 v0
      = (arcLoop M v0 (arcRadius M v2 v0) (arcSweep M modal v1 v2 v0).direction
          (arcSweep M modal v1 v2 v0).endTheta
          (thetaStep (arcSweep M modal v1 v2 v0).deltaTheta (arcRadius M v2 v0)) fuel
          (JSNum.fin (arcAngle M v1 v0)
            + thetaStep (arcSweep M modal v1 v2 v0).deltaTheta (arcRadius M v2 v0))).map
        fun rest => arcPoint M v0 (arcRadius M v2 v0) (JSNum.fin (arcAngle M v1 v0)) :: rest := by
  unfold arcPoints
  simp only [arcLoop, hc, if_true]

/-- When the loop condition holds at the start angle and the loop ends, its first point is
the point computed at the start angle. -/
theorem arcPoints_head (M : JSMath α) (modal : Modal) (v1 v2 v0 : Vec α)
    (hc : loopCond (arcSweep M modal v1 v2 v0).direction (arcSweep M modal v1 v2 v0).endTheta
      (JSNum.fin (arcAngle M v1 v0)) = true) (fuel : Nat) (pts : List (Vertex α))
    (h : arcPoints M fuel modal v1 v2 v0 = some pts) :
    ∃ rest : List (Vertex α),
      pts = arcPoint M v0 (arcRadius M v2 v0) (JSNum.fin (arcAngle M v1 v0)) :: rest := by
  cases fuel with
  | zero =>
    unfold arcPoints at h
    simp [arcLoop, hc] at h
  | succ n =>
    rw [arcPoints_first M modal v1 v2 v0 hc n] at h
    obtain ⟨rest, -, rfl⟩ := Option.map_eq_some'.mp h
    exact ⟨rest, rfl⟩

/-- What `addArcCurve` returns when start and end differ and it returns: the path, the
points of the loop, the end point. -/
theorem addArcCurve_some (M : JSMath α) (fuel : Nat) (modal : Modal) (path : List (Vertex α))
    (v1 v2 v0 : Vec α) (hne : v1.x ≠ v2.x ∨ v1.y ≠ v2.y) (out : List (Vertex α))
    (h : addArcCurve M fuel modal path v1 v2 v0 = some out) :
    ∃ pts : List (Vertex α), arcPoints M fuel modal v1 v2 v0 = some pts ∧
      out = path ++ (pts ++ [v2.toVertex]) := by
  simp only [addArcCurve, if_pos hne] at h
  cases hp : arcPoints M fuel modal v1 v2 v0 with
  | none =>
    rw [hp] at h
    simp at h
  | some pts =>
    rw [hp] at h
    simp only [Option.some.injEq] at h
    refine ⟨pts, rfl, ?_⟩
    rw [← h]
    simp [addVertex, Vec.toVertex]

end LoopPoints

/-! ## Claims about the points pushed by the stepping loop -/

section LoopPointClaims

variable {α : Type} [LinearOrderedField α]

/-- C18 (counterexample): on the arc `G2` from `(0,1)` to `(1,0)` around `(0,0)`, with the
values the binary64 `Math` library returns, the loop ends after four points and its third
point `(0.8414709848078965, 0.5403023058681397)` is not on the circle of radius 1 around
the centre: `x^2 + y^2 ≠ 1^2 + 0^2`. -/
theorem arc_points_on_circle_counterexample :
    (∃ p0 p1 p3 : Vertex ℚ, arcPoints QuarterArcMath 4 ⟨"G2"⟩ ⟨0, 1⟩ ⟨1, 0⟩ ⟨0, 0⟩
      = some [p0, p1, ⟨JSNum.fin (3789648413623927 / 4503599627370496),
          JSNum.fin (4866610526750347 / 9007199254740992)⟩, p3]) ∧
    ((3789648413623927 / 4503599627370496 : ℚ) - 0) ^ 2
        + ((4866610526750347 / 9007199254740992 : ℚ) - 0) ^ 2
      ≠ ((1 : ℚ) - 0) ^ 2 + ((0 : ℚ) - 0) ^ 2 := by
  refine ⟨⟨_, _, _, quarterArc_run⟩, ?_⟩
  norm_num

/-- C18 (amended): every point pushed by a run of the stepping loop of `addArcCurve` is the
computed point `(v0.x + radius * cos θ, v0.y + radius * sin θ)` at an angle `θ` that passed
the loop condition, where `radius` is the computed distance from the END point `v2` (not
from the start) to the centre `v0`.  (The point lies on the circle of that radius only up
to the rounding of `sqrt`, `cos` and `sin`.) -/
theorem arc_points_polar (M : JSMath α) (fuel : Nat) (modal : Modal) (v1 v2 v0 : Vec α)
    (pts : List (Vertex α)) (h : arcPoints M fuel modal v1 v2 v0 = some pts) :
    ∀ p ∈ pts, ∃ θ : JSNum α,
      loopCond (arcSweep M modal v1 v2 v0).direction (arcSweep M modal v1 v2 v0).endTheta θ
        = true ∧
      p = ⟨JSNum.fin v0.x
            + JSNum.fin (M.sqrt ((v2.x - v0.x) ^ 2 + (v2.y - v0.y) ^ 2))
              * JSNum.liftFinite M.cos θ,
           JSNum.fin v0.y
            + JSNum.fin (M.sqrt ((v2.x - v0.x) ^ 2 + (v2.y - v0.y) ^ 2))
              * JSNum.liftFinite M.sin θ⟩ :=
  arcLoop_mem M v0 _ _ _ _ fuel _ pts h

/-- Witness for C18: the arc `G2` from `(0,1)` to `(1,0)` around `(0,0)` with the library's
values; the loop ends within four runs of its body. -/
theorem arc_points_polar_witness :
    (∃ pts : List (Vertex ℚ),
      arcPoints QuarterArcMath 4 ⟨"G2"⟩ ⟨0, 1⟩ ⟨1, 0⟩ ⟨0, 0⟩ = some pts ∧ pts.length = 4) ∧
    ∀ pts : List (Vertex ℚ),
      arcPoints QuarterArcMath 4 ⟨"G2"⟩ ⟨0, 1⟩ ⟨1, 0⟩ ⟨0, 0⟩ = some pts →
      ∀ p ∈ pts, ∃ θ : JSNum ℚ,
        loopCond (arcSweep QuarterArcMath ⟨"G2"⟩ ⟨0, 1⟩ ⟨1, 0⟩ ⟨0, 0⟩).direction
          (arcSweep QuarterArcMath ⟨"G2"⟩ ⟨0, 1⟩ ⟨1, 0⟩ ⟨0, 0⟩).endTheta θ = true ∧
        p = ⟨JSNum.fin 0
              + JSNum.fin (QuarterArcMath.sqrt (((1 : ℚ) - 0) ^ 2 + ((0 : ℚ) - 0) ^ 2))
                * JSNum.liftFinite QuarterArcMath.cos θ,
             JSNum.fin 0
              + JSNum.fin (QuarterArcMath.sqrt (((1 : ℚ) - 0) ^ 2 + ((0 : ℚ) - 0) ^ 2))
                * JSNum.liftFinite QuarterArcMath.sin θ⟩ :=
  ⟨⟨_, quarterArc_run, rfl⟩,
   fun pts h => arc_points_polar QuarterArcMath 4 ⟨"G2"⟩ ⟨0, 1⟩ ⟨1, 0⟩ ⟨0, 0⟩ pts h⟩

/-- C19 (counterexample): the arc `G2` from `(0,1)` to `(1,0)` around `(0,0)` has start ≠ end,
radius 1, a non-zero sweep and its start at distance 1 from the centre; with the values
the binary64 `Math` library returns, after a path ending in the start point `(0,1)` the
first vertex appended by `addArcCurve` is `(6.123233995736766e-17, 1)`, not `(0,1)`. -/
theorem addArcCurve_first_is_start_counterexample :
    (((0 : ℚ) ≠ 1 ∨ (1 : ℚ) ≠ 0) ∧
      0 < arcRadius QuarterArcMath ⟨1, 0⟩ ⟨0, 0⟩ ∧
      (arcSweep QuarterArcMath ⟨"G2"⟩ ⟨0, 1⟩ ⟨1, 0⟩ ⟨0, 0⟩).deltaTheta ≠ 0 ∧
      arcRadius QuarterArcMath ⟨0, 1⟩ ⟨0, 0⟩ = arcRadius QuarterArcMath ⟨1, 0⟩ ⟨0, 0⟩) ∧
    addArcCurve QuarterArcMath 4 ⟨"G2"⟩ [⟨JSNum.fin 0, JSNum.fin 1⟩] ⟨0, 1⟩ ⟨1, 0⟩ ⟨0, 0⟩
      = some [⟨JSNum.fin 0, JSNum.fin 1⟩,
          ⟨JSNum.fin (4967757600021511 / 81129638414606681695789005144064), JSNum.fin 1⟩,
          ⟨JSNum.fin (8636562708039153 / 18014398509481984),
            JSNum.fin (7904560997432655 / 9007199254740992)⟩,
          ⟨JSNum.fin (3789648413623927 / 4503599627370496),
            JSNum.fin (4866610526750347 / 9007199254740992)⟩,
          ⟨JSNum.fin (8984636099947915 / 9007199254740992),
            JSNum.fin (5097152561150371 / 72057594037927936)⟩,
          ⟨JSNum.fin 1, JSNum.fin 0⟩] ∧
    (⟨JSNum.fin (4967757600021511 / 81129638414606681695789005144064), JSNum.fin 1⟩ : Vertex ℚ)
      ≠ ⟨JSNum.fin 0, JSNum.fin 1⟩ := by
  obtain ⟨h1, h2, h3⟩ := quarterArc_hypotheses
  refine ⟨⟨Or.inl (by norm_num), by rw [h2]; norm_num, h3, by rw [h1, h2]⟩, ?_, ?_⟩
  · have hne : (⟨0, 1⟩ : Vec ℚ).x ≠ (⟨1, 0⟩ : Vec ℚ).x ∨ (⟨0, 1⟩ : Vec ℚ).y ≠ (⟨1, 0⟩ : Vec ℚ).y :=
      Or.inl (by norm_num)
    simp only [addArcCurve, if_pos hne, quarterArc_run, addVertex, List.cons_append,
      List.nil_append]
  · intro h
    have hx := congrArg Vertex.x h
    simp only [JSNum.fin.injEq] at hx
    norm_num at hx

/-- C19 (amended): for every `G2` or `G3` arc with start ≠ end whose start and end angles
lie in `[-π, π]` (the range of `Math.atan2`), the loop condition holds at `startTheta`, so
the first run of the loop body pushes the computed point
`v0 + radius * (cos startTheta, sin startTheta)` with `radius` the computed distance from
`v2` to `v0`: this point, which is `v1` only up to the rounding of `atan2`, `sqrt`, `cos`
and `sin`, is the first vertex appended by every run of `addArcCurve` that returns,
whatever the path ends with; after a line move that ended at `v1` and appended it, the
path holds `v1` followed by that computed point. -/
theorem addArcCurve_first_is_polar (M : JSMath α) (modal : Modal) (v1 v2 v0 : Vec α)
    (hm : modal.motion = "G2" ∨ modal.motion = "G3")
    (hne : v1.x ≠ v2.x ∨ v1.y ≠ v2.y)
    (hs : -M.pi ≤ arcAngle M v1 v0 ∧ arcAngle M v1 v0 ≤ M.pi)
    (he : -M.pi ≤ arcAngle M v2 v0 ∧ arcAngle M v2 v0 ≤ M.pi) :
    loopCond (arcSweep M modal v1 v2 v0).direction (arcSweep M modal v1 v2 v0).endTheta
      (JSNum.fin (arcAngle M v1 v0)) = true ∧
    (∀ fuel : Nat, arcPoints M (fuel + 1) modal v1 v2 v0
      = (arcLoop M v0 (arcRadius M v2 v0) (arcSweep M modal v1 v2 v0).direction
          (arcSweep M modal v1 v2 v0).endTheta
          (thetaStep (arcSweep M modal v1 v2 v0).deltaTheta (arcRadius M v2 v0)) fuel
          (JSNum.fin (arcAngle M v1 v0)
            + thetaStep (arcSweep M modal v1 v2 v0).deltaTheta (arcRadius M v2 v0))).map
        fun rest =>
          arcPoint M v0 (arcRadius M v2 v0) (JSNum.fin (arcAngle M v1 v0)) :: rest) ∧
    (∀ (fuel : Nat) (path out : List (Vertex α)),
      addArcCurve M fuel modal path v1 v2 v0 = some out →
      ∃ rest : List (Vertex α), out = path ++
        arcPoint M v0 (arcRadius M v2 v0) (JSNum.fin (arcAngle M v1 v0))
          :: (rest ++ [v2.toVertex])) ∧
    (∀ (fuel : Nat) (m : Modal) (path out : List (Vertex α)) (u : Vec α),
      (u.x ≠ v1.x ∨ u.y ≠ v1.y) →
      addArcCurve M fuel modal (addLine m path u v1) v1 v2 v0 = some out →
      ∃ rest : List (Vertex α), out = path ++ v1.toVertex ::
        arcPoint M v0 (arcRadius M v2 v0) (JSNum.fin (arcAngle M v1 v0))
          :: (rest ++ [v2.toVertex])) := by
  have hc := loopCond_start M modal v1 v2 v0 hm hs he
  have hall : ∀ (fuel : Nat) (path out : List (Vertex α)),
      addArcCurve M fuel modal path v1 v2 v0 = some out →
      ∃ rest : List (Vertex α), out = path ++
        arcPoint M v0 (arcRadius M v2 v0) (JSNum.fin (arcAngle M v1 v0))
          :: (rest ++ [v2.toVertex]) := by
    intro fuel path out h
    obtain ⟨pts, hp, rfl⟩ := addArcCurve_some M fuel modal path v1 v2 v0 hne out h
    obtain ⟨rest, rfl⟩ := arcPoints_head M modal v1 v2 v0 hc fuel pts hp
    exact ⟨rest, rfl⟩
  refine ⟨hc, arcPoints_first M modal v1 v2 v0 hc, hall, ?_⟩
  intro fuel m path out u hu h
  obtain ⟨rest, rfl⟩ := hall fuel _ out h
  refine ⟨rest, ?_⟩
  simp only [addLine, if_pos hu, addVertex, Vec.toVertex, List.append_assoc,
    List.singleton_append]

/-- Witness for C19: the arc `G2` from `(0,1)` to `(1,0)` around `(0,0)` with the library's
values, on which `addArcCurve` returns within four runs of the loop body. -/
theorem addArcCurve_first_is_polar_witness :
    (∃ out : List (Vertex ℚ),
      addArcCurve QuarterArcMath 4 ⟨"G2"⟩ (addLine ⟨"G1"⟩ [] ⟨0, 0⟩ ⟨0, 1⟩) ⟨0, 1⟩ ⟨1, 0⟩ ⟨0, 0⟩
        = some out) ∧
    loopCond (arcSweep QuarterArcMath ⟨"G2"⟩ ⟨0, 1⟩ ⟨1, 0⟩ ⟨0, 0⟩).direction
      (arcSweep QuarterArcMath ⟨"G2"⟩ ⟨0, 1⟩ ⟨1, 0⟩ ⟨0, 0⟩).endTheta
      (JSNum.fin (arcAngle QuarterArcMath ⟨0, 1⟩ ⟨0, 0⟩)) = true ∧
    ∀ (fuel : Nat) (m : Modal) (path out : List (Vertex ℚ)) (u : Vec ℚ),
      (u.x ≠ 0 ∨ u.y ≠ 1) →
      addArcCurve QuarterArcMath fuel ⟨"G2"⟩ (addLine m path u ⟨0, 1⟩) ⟨0, 1⟩ ⟨1, 0⟩ ⟨0, 0⟩
        = some out →
      ∃ rest : List (Vertex ℚ), out = path ++ Vec.toVertex ⟨0, 1⟩ ::
        arcPoint QuarterArcMath ⟨0, 0⟩ (arcRadius QuarterArcMath ⟨1, 0⟩ ⟨0, 0⟩)
            (JSNum.fin (arcAngle QuarterArcMath ⟨0, 1⟩ ⟨0, 0⟩))
          :: (rest ++ [Vec.toVertex ⟨1, 0⟩]) := by
  have hne : (⟨0, 1⟩ : Vec ℚ).x ≠ (⟨1, 0⟩ : Vec ℚ).x ∨ (⟨0, 1⟩ : Vec ℚ).y ≠ (⟨1, 0⟩ : Vec ℚ).y :=
    Or.inl (by norm_num)
  obtain ⟨hc, -, -, hline⟩ := addArcCurve_first_is_polar QuarterArcMath ⟨"G2"⟩ ⟨0, 1⟩ ⟨1, 0⟩
    ⟨0, 0⟩ (Or.inl rfl) hne quarterArc_start quarterArc_end
  refine ⟨?_, hc, hline⟩
  simp only [addArcCurve, if_pos hne, quarterArc_run]
  exact ⟨_, rfl⟩

end LoopPointClaims

end GCodeImporter
